import Mathlib

/-!
Shallow embedding of the caching / batching / search subsystem of
`src/server.js` (panchang HTTP API).

The astronomical computation (`MhahPanchang`) is an opaque external
collaborator; it is modelled as a `Panchang` structure holding the two
functions the server calls (`calendar` and `sunTimer`), each returning
`Except String _` to model a JS function that may throw.  The JS `Map`s
(`panchangCache`, `tithiSearchCache`) are modelled as association lists in
insertion order; `Map.has / Map.get / Map.set / Map.size / Map.clear`
become `mapHas / mapGet? / mapSet / List.length / emptying`.  `Map.set`
replaces the value in place when the key is present and appends otherwise,
so keys stay pairwise distinct and the list length is the `Map` size.

Stateful handlers are embedded as explicit state passing.  For the
`/cache-year` handler, whose observable behaviour is about *when* work
happens relative to the HTTP response and the `setImmediate` yield points,
the embedding additionally produces a list of events (`WarmEv`) in the
order the single-threaded event loop performs them: a `compute` event each
time the external computer is invoked, a `store` event for each cache
insertion, an `errorLog` for each logged per-date failure, a `yield` at
each `setImmediate` boundary, and `respond` when `res.json` runs.
-/

/-! ## Data model -/

/-- Fields returned by `panchangObj.calendar` (opaque display strings). -/
structure CalendarFields where
  tithi : String
  paksha : String
  nakshatra : String
  yoga : String
  karna : String
  masa : String
  raasi : String
  ritu : String
deriving DecidableEq

/-- Fields returned by `panchangObj.sunTimer`. -/
structure SunTimes where
  sunRise : String
  sunSet : String
deriving DecidableEq

/-- The opaque external computer (`MhahPanchang` instance).  Its two methods
are deterministic functions of the raw argument strings; a thrown JS
exception is `Except.error` carrying the message. -/
structure Panchang where
  calendar : String → String → String → Except String CalendarFields
  sunTimer : String → String → String → Except String SunTimes

/-- The record constructed and cached by `getPanchangData`
(`src/server.js` lines 89-103): echoes the raw inputs and copies the
computed fields. -/
structure AlmanacRecord where
  date : String
  latitude : String
  longitude : String
  tithi : String
  paksha : String
  nakshatra : String
  yoga : String
  karna : String
  masa : String
  raasi : String
  ritu : String
  sunrise : String
  sunset : String
deriving DecidableEq

/-- `panchangCache` contents: a JS `Map` in insertion order. -/
abbrev Cache := List (String × AlmanacRecord)

/-- JS `Map.has`. -/
def mapHas (m : List (String × α)) (k : String) : Bool :=
  m.any (fun p => p.1 == k)

/-- JS `Map.get` (`none` models `undefined`). -/
def mapGet? (m : List (String × α)) (k : String) : Option α :=
  (m.find? (fun p => p.1 == k)).map (fun p => p.2)

/-- JS `Map.set`: replaces in place when the key is present, appends
otherwise (so the association list always has pairwise-distinct keys and
its length is the `Map` size). -/
def mapSet (m : List (String × α)) (k : String) (v : α) : List (String × α) :=
  if mapHas m k then m.map (fun p => if p.1 == k then (k, v) else p)
  else m ++ [(k, v)]

/-! ## Cache key (`getCacheKey`, lines 65-67) -/

/-- `getCacheKey(date, lat, lng)` returns the template string
`date + "_" + lat + "_" + lng`. -/
def getCacheKey (date lat lng : String) : String :=
  date ++ "_" ++ lat ++ "_" ++ lng

/-! ## Event trace for the stateful handlers -/

/-- Observable events of the single-threaded event loop, in execution
order. -/
inductive WarmEv where
  | compute (date lat lng : String)
  | store (key : String)
  | errorLog (date : String)
  | yield
  | respond (totalDates : Nat) (location : String)
deriving DecidableEq

/-- Whether an event is an invocation of the external computer. -/
def WarmEv.isCompute : WarmEv → Bool
  | .compute _ _ _ => true
  | _ => false

/-- Whether an event is the production of the HTTP response. -/
def WarmEv.isRespond : WarmEv → Bool
  | .respond _ _ => true
  | _ => false

/-! ## `getPanchangData` (lines 70-111) -/

/-- The `panchangData` object literal built on a cache miss
(lines 89-103). -/
def buildRecord (date lat lng : String) (result : CalendarFields) (sun : SunTimes) :
    AlmanacRecord :=
  { date := date, latitude := lat, longitude := lng,
    tithi := result.tithi, paksha := result.paksha, nakshatra := result.nakshatra,
    yoga := result.yoga, karna := result.karna, masa := result.masa,
    raasi := result.raasi, ritu := result.ritu,
    sunrise := sun.sunRise, sunset := sun.sunSet }

/-- `getPanchangData(date, lat, lng)`: consult `panchangCache` under
`getCacheKey`; on a hit return the stored record; on a miss call
`calendar` then `sunTimer` (the JS passes `new Date(date)` and
`parseFloat`ed coordinates to the opaque computer; composing those
decodings into the opaque functions, the computer receives the raw
strings), build the record, store it, and return it.  A throw from either
computer call is re-thrown as `"Failed to calculate panchang: " + message`
with nothing stored.  The third component is the event trace of this
call. -/
def getPanchangData (p : Panchang) (cache : Cache) (date lat lng : String) :
    Except String AlmanacRecord × Cache × List WarmEv :=
  let cacheKey := getCacheKey date lat lng
  match mapGet? cache cacheKey with
  | some r => (Except.ok r, cache, [])
  | none =>
    match p.calendar date lat lng with
    | Except.error e =>
      (Except.error ("Failed to calculate panchang: " ++ e), cache,
        [WarmEv.compute date lat lng])
    | Except.ok result =>
      match p.sunTimer date lat lng with
      | Except.error e =>
        (Except.error ("Failed to calculate panchang: " ++ e), cache,
          [WarmEv.compute date lat lng])
      | Except.ok sun =>
        let panchangData := buildRecord date lat lng result sun
        (Except.ok panchangData, mapSet cache cacheKey panchangData,
          [WarmEv.compute date lat lng, WarmEv.store cacheKey])

/-- The record a fresh (uncached) computation for `(date, lat, lng)` would
produce, if both computer calls succeed. -/
def computedRecord (p : Panchang) (date lat lng : String) : Option AlmanacRecord :=
  match p.calendar date lat lng, p.sunTimer date lat lng with
  | Except.ok result, Except.ok sun => some (buildRecord date lat lng result sun)
  | _, _ => none

/-! ## Year enumeration (`getDatesInCurrentYear`, lines 114-129, and the
`String.prototype.padLeft` helper, lines 131-134) -/

/-- Gregorian leap-year rule, as implemented by the JS `Date` object that
`new Date(year, month, 0).getDate()` consults. -/
def isLeapYear (y : Nat) : Bool :=
  (y % 4 == 0 && y % 100 != 0) || y % 400 == 0

/-- `new Date(year, month, 0).getDate()` for 1-indexed `month`: the number
of days in that month of that year per the (proleptic) Gregorian
calendar. -/
def daysInMonth (y m : Nat) : Nat :=
  if m == 2 then (if isLeapYear y then 29 else 28)
  else if m == 4 || m == 6 || m == 9 || m == 11 then 30
  else 31

/-- JS `Array(count).join(sep)`: `count` empty slots joined by `sep`,
i.e. `sep` repeated `count - 1` times (empty for `count = 0` or `1`). -/
def jsJoinEmpty (count : Nat) (sep : String) : String :=
  String.join (List.replicate (count - 1) sep)

/-- JS `s.slice(-n)` for a nonnegative `n`: the suffix of the last `n`
characters; `slice(-0)` is `slice(0)`, the whole string. -/
def jsSliceNeg (s : String) (n : Nat) : String :=
  if n == 0 then s else ⟨s.data.drop (s.data.length - n)⟩

/-- `String.prototype.padLeft(length, character)`:
`(Array(length).join(character) + this).slice(-length)`. -/
def padLeft (s : String) (len : Nat) (character : String) : String :=
  jsSliceNeg (jsJoinEmpty len character ++ s) len

/-- `getDatesInCurrentYear()`: for month 1..12 and day 1..daysInMonth,
push `year + "-" + pad(month) + "-" + pad(day)`.  The JS reads the current
year from the clock (`new Date().getFullYear()`); the year is the sole
input, made explicit here. -/
def getDatesInCurrentYear (currentYear : Nat) : List String :=
  (List.range' 1 12).flatMap (fun month =>
    (List.range' 1 (daysInMonth currentYear month)).map (fun day =>
      toString currentYear ++ "-" ++ padLeft (toString month) 2 "0" ++ "-" ++
        padLeft (toString day) 2 "0"))

/-! ## Batch warmer (`POST /cache-year`, lines 154-207) -/

/-- The body of the `for (let i = startIdx; i < endIdx; i++)` loop inside
`processBatch` (lines 173-185), applied to each date of one chunk in
order: skip a date whose key is already cached, otherwise call
`getPanchangData` and, if it throws, log the error and continue.  (The
local `cachedCount` counter is write-only and dropped.) -/
def processRange (p : Panchang) (lat lng : String) :
    List String → Cache → Cache × List WarmEv
  | [], cache => (cache, [])
  | date :: rest, cache =>
    let cacheKey := getCacheKey date lat lng
    if mapHas cache cacheKey then processRange p lat lng rest cache
    else
      match getPanchangData p cache date lat lng with
      | (Except.ok _, cache1, evs) =>
        let next := processRange p lat lng rest cache1
        (next.1, evs ++ next.2)
      | (Except.error _, cache1, evs) =>
        let next := processRange p lat lng rest cache1
        (next.1, evs ++ [WarmEv.errorLog date] ++ next.2)

/-- The chain of `setImmediate`-scheduled `processBatch` invocations after
the first: each processes the next chunk of `batchSize = 50` dates (the
arithmetic `startIdx = currentBatch * batchSize`, `endIdx =
min(startIdx + batchSize, dates.length)` is expressed as take/drop), and
schedules one more round iff `endIdx < dates.length`.  The `yield` event
marks each `setImmediate` boundary. -/
def processDeferred (p : Panchang) (lat lng : String) (dates : List String)
    (cache : Cache) : Cache × List WarmEv :=
  let step := processRange p lat lng (dates.take 50) cache
  if _h : 50 < dates.length then
    let next := processDeferred p lat lng (dates.drop 50) step.1
    (next.1, step.2 ++ WarmEv.yield :: next.2)
  else step
termination_by dates.length
decreasing_by simp [List.length_drop]; omega

/-- The `/cache-year` handler after validation, as the event loop executes
it: `processBatch()` runs the first chunk of 50 synchronously (scheduling
the second chunk via `setImmediate` when dates remain), and only then does
`res.json` produce the message/totalDates/location response; the deferred
chunks execute after the response, separated by yields. -/
def warmTrace (p : Panchang) (lat lng : String) (year : Nat) (cache : Cache) :
    Cache × List WarmEv :=
  let dates := getDatesInCurrentYear year
  let step := processRange p lat lng (dates.take 50) cache
  let rest :=
    if 50 < dates.length then
      let next := processDeferred p lat lng (dates.drop 50) step.1
      (next.1, WarmEv.yield :: next.2)
    else (step.1, [])
  (rest.1,
    step.2 ++ WarmEv.respond dates.length (lat ++ ", " ++ lng) :: rest.2)

/-! ## Request-body values and the `/cache-year` validation (lines
154-160) -/

/-- A JSON-ish value as destructured from `req.body` (`undef` models a
missing property; numbers are modelled as integers, which covers every
value the claims mention). -/
inductive JVal where
  | undef
  | null
  | bool (b : Bool)
  | num (n : Int)
  | str (s : String)
deriving DecidableEq

/-- JS truthiness of a `JVal`: `undefined`, `null`, `false`, `0` and `""`
are falsy. -/
def JVal.truthy : JVal → Bool
  | .undef => false
  | .null => false
  | .bool b => b
  | .num n => n != 0
  | .str s => s != ""

/-- JS string interpolation of a `JVal` into a template literal. -/
def JVal.interp : JVal → String
  | .undef => "undefined"
  | .null => "null"
  | .bool b => if b then "true" else "false"
  | .num n => toString n
  | .str s => s

/-- The `/cache-year` handler including its parameter check
`if (!lat || !lng)`, which answers HTTP 400 with error "Missing lat or
lng": the check tests truthiness of the body values, and only when both
are truthy does the warm-up run (on the interpolated strings). -/
def cacheYearHandler (p : Panchang) (cache : Cache) (year : Nat)
    (lat lng : JVal) : Except (Nat × String) (Cache × List WarmEv) :=
  if !lat.truthy || !lng.truthy then Except.error (400, "Missing lat or lng")
  else Except.ok (warmTrace p lat.interp lng.interp year cache)

/-! ## Tithi search (`GET /search-tithi`, lines 210-266) -/

/-- One element of the `matchingDates` array (lines 237-244). -/
structure MatchEntry where
  date : String
  tithi : String
  paksha : String
  nakshatra : String
  sunrise : String
  sunset : String
deriving DecidableEq

/-- The response object of `/search-tithi` (lines 251-256). -/
structure SearchResult where
  tithi : String
  location : String
  totalMatches : Nat
  dates : List MatchEntry
deriving DecidableEq

/-- JS `String.prototype.toLowerCase`: each character lowercased. -/
def jsToLowerCase (s : String) : String :=
  ⟨s.data.map Char.toLower⟩

/-- The fields copied from a matching record into `matchingDates`. -/
def toMatchEntry (pd : AlmanacRecord) : MatchEntry :=
  { date := pd.date, tithi := pd.tithi, paksha := pd.paksha,
    nakshatra := pd.nakshatra, sunrise := pd.sunrise, sunset := pd.sunset }

/-- The `for (const date of dates)` scan of `/search-tithi` (lines
228-249): compute (or fetch) each date's record, keep it when
`panchangData.tithi && panchangData.tithi.toLowerCase() ===
tithi.toLowerCase()`, and on a thrown error log and move on. -/
def searchScan (p : Panchang) (tithi lat lng : String) :
    List String → Cache → List MatchEntry × Cache
  | [], cache => ([], cache)
  | date :: rest, cache =>
    match getPanchangData p cache date lat lng with
    | (Except.ok pd, cache1, _) =>
      let next := searchScan p tithi lat lng rest cache1
      (if pd.tithi != "" && (jsToLowerCase pd.tithi == jsToLowerCase tithi)
        then toMatchEntry pd :: next.1 else next.1, next.2)
    | (Except.error _, cache1, _) => searchScan p tithi lat lng rest cache1

/-- Combined mutable server state: the two module-level `Map`s. -/
structure ServerState where
  panchangCache : Cache
  tithiSearchCache : List (String × SearchResult)
deriving DecidableEq

/-- The `/search-tithi` handler after validation: build `searchKey =
tithi + "_" + lat + "_" + lng` from the term as given, return the
cached result verbatim on a hit, otherwise scan the current year's
enumeration, assemble the result, store it under `searchKey`, and return
it. -/
def searchTithi (p : Panchang) (st : ServerState) (tithi lat lng : String)
    (year : Nat) : SearchResult × ServerState :=
  let searchKey := tithi ++ "_" ++ lat ++ "_" ++ lng
  match mapGet? st.tithiSearchCache searchKey with
  | some r => (r, st)
  | none =>
    let dates := getDatesInCurrentYear year
    let scan := searchScan p tithi lat lng dates st.panchangCache
    let result : SearchResult :=
      { tithi := tithi, location := lat ++ ", " ++ lng,
        totalMatches := scan.1.length, dates := scan.1 }
    (result,
      { panchangCache := scan.2,
        tithiSearchCache := mapSet st.tithiSearchCache searchKey result })

/-! ## Tithi suggestions (`GET /tithis`, lines 269-303) -/

/-- JS `Set.prototype.add` on a set held in insertion order. -/
def setAdd (s : List String) (x : String) : List String :=
  if s.contains x then s else s ++ [x]

/-- The `for (const date of sampleDates)` loop (lines 283-292): collect
each sampled date's tithi into the set when truthy, skipping dates whose
computation throws. -/
def collectTithis (p : Panchang) (lat lng : String) :
    List String → Cache → List String → List String × Cache
  | [], cache, tset => (tset, cache)
  | date :: rest, cache, tset =>
    match getPanchangData p cache date lat lng with
    | (Except.ok pd, cache1, _) =>
      collectTithis p lat lng rest cache1
        (if pd.tithi != "" then setAdd tset pd.tithi else tset)
    | (Except.error _, cache1, _) => collectTithis p lat lng rest cache1 tset

/-- Strict order on Unicode scalar values, the order JS uses to compare
strings character by character. -/
def charNatLt (c d : Char) : Prop := c.toNat < d.toNat

/-- Executable lexicographic comparison of character lists by scalar
value (the JS relational/sort order on strings). -/
def charsLt : List Char → List Char → Bool
  | _, [] => false
  | [], _ :: _ => true
  | a :: as, b :: bs =>
    if a.toNat < b.toNat then true
    else if b.toNat < a.toNat then false
    else charsLt as bs

/-- JS `Array.from(set).sort()`: default sort of the collected strings,
comparing lexicographically by code unit (`a` may stay before `b` iff
`b` is not strictly below `a`). -/
def jsSortStrings (l : List String) : List String :=
  l.mergeSort (fun a b => !charsLt b.data a.data)

/-- The `/tithis` handler after validation: sample every 15th date of the
current year's enumeration (`dates.filter((_, index) => index % 15 === 0)`),
collect the distinct tithis, and respond with the sorted list, the
location string and the fixed note. -/
def tithisHandler (p : Panchang) (cache : Cache) (lat lng : String)
    (year : Nat) : (List String × String × String) × Cache :=
  let dates := getDatesInCurrentYear year
  let sampleDates := (dates.enum.filter (fun q => q.1 % 15 == 0)).map (fun q => q.2)
  let collected := collectTithis p lat lng sampleDates cache []
  ((jsSortStrings collected.1, lat ++ ", " ++ lng,
    "Based on sample dates from current year"), collected.2)

/-! ## Cache administration (`GET /cache-stats` lines 306-312,
`DELETE /cache` lines 314-319) -/

/-- The `/cache-stats` response: both `Map` sizes and the fixed message. -/
def cacheStats (st : ServerState) : Nat × Nat × String :=
  (st.panchangCache.length, st.tithiSearchCache.length, "Cache statistics")

/-- The `DELETE /cache` handler: `panchangCache.clear()`,
`tithiSearchCache.clear()`, then the success message. -/
def clearCache (_st : ServerState) : ServerState × String :=
  ({ panchangCache := [], tithiSearchCache := [] }, "Cache cleared successfully")

/-! ## Concrete computers and fixtures used by witnesses and
counterexamples -/

/-- A computer that always succeeds with the same fields. -/
def constPanchang : Panchang :=
  { calendar := fun _ _ _ =>
      Except.ok ⟨"Purnima", "Shukla", "Rohini", "Siddhi", "Bava", "Chaitra",
        "Aries", "Vasanta"⟩,
    sunTimer := fun _ _ _ => Except.ok ⟨"06:00", "18:00"⟩ }

/-- A computer that always throws (e.g. an unparseable date). -/
def errPanchang : Panchang :=
  { calendar := fun _ _ _ => Except.error "Invalid Date",
    sunTimer := fun _ _ _ => Except.error "Invalid Date" }

/-- A computer whose `sunTimer` throws although `calendar` succeeds. -/
def sunErrPanchang : Panchang :=
  { calendar := fun _ _ _ =>
      Except.ok ⟨"Purnima", "Shukla", "Rohini", "Siddhi", "Bava", "Chaitra",
        "Aries", "Vasanta"⟩,
    sunTimer := fun _ _ _ => Except.error "sun failure" }

/-- A sample cached record. -/
def sampleRecord : AlmanacRecord :=
  { date := "2024-01-01", latitude := "1", longitude := "2",
    tithi := "Purnima", paksha := "Shukla", nakshatra := "Rohini",
    yoga := "Siddhi", karna := "Bava", masa := "Chaitra", raasi := "Aries",
    ritu := "Vasanta", sunrise := "06:00", sunset := "18:00" }

/-- Executable check that a list of strings is strictly ascending in the
JS comparison order. -/
def chainAsc : List String → Bool
  | [] => true
  | [_] => true
  | a :: b :: rest => charsLt a.data b.data && chainAsc (b :: rest)

/-! ## Date-string shape -/

/-- Checks the `YYYY-MM-DD` shape: four digits, dash, two digits, dash,
two digits. -/
def isDateShape (s : String) : Bool :=
  match s.data with
  | [y1, y2, y3, y4, s1, m1, m2, s2, d1, d2] =>
    y1.isDigit && y2.isDigit && y3.isDigit && y4.isDigit && (s1 == '-') &&
      m1.isDigit && m2.isDigit && (s2 == '-') && d1.isDigit && d2.isDigit
  | _ => false

/-- A search result cached under the lowercase key. -/
def resultLower : SearchResult :=
  { tithi := "purnima", location := "1, 2", totalMatches := 0, dates := [] }

/-- A different search result cached under the capitalized key. -/
def resultUpper : SearchResult :=
  { tithi := "Purnima", location := "1, 2", totalMatches := 1,
    dates := [⟨"2024-01-01", "Purnima", "Shukla", "Rohini", "06:00", "18:00"⟩] }

/-- A server state caching both case variants of the same term under
distinct keys with different contents. -/
def caseState : ServerState :=
  { panchangCache := [],
    tithiSearchCache := [("purnima_1_2", resultLower),
      ("Purnima_1_2", resultUpper)] }

/-- Splits an event trace at its `yield` events: the segments of
consecutive non-yield events, in order. -/
def splitOnYield : List WarmEv → List (List WarmEv)
  | [] => [[]]
  | WarmEv.yield :: rest => [] :: splitOnYield rest
  | e :: rest =>
    match splitOnYield rest with
    | [] => [[e]]
    | seg :: segs => (e :: seg) :: segs

/-- A cache is faithful (for fixed coordinates) when every record it holds
under a `(date, lat, lng)` key is the record the deterministic computer
would produce for that key.  This is the invariant the server maintains:
entries are only ever created by `getPanchangData` from the computer's
output. -/
def cacheFaithful (p : Panchang) (cache : Cache) (lat lng : String) : Prop :=
  ∀ d r, mapGet? cache (getCacheKey d lat lng) = some r →
    computedRecord p d lat lng = some r

/-- Modelled from the spec (the claim side of a refinement statement):
the per-date outcome of the search scan as the claim describes it — keep a
date iff the computer's record for it exists, its tithi is truthy, and it
matches the term case-insensitively. -/
def specSearchMatch (p : Panchang) (term lat lng d : String) :
    Option MatchEntry :=
  match computedRecord p d lat lng with
  | some pd =>
    if pd.tithi != "" && (jsToLowerCase pd.tithi == jsToLowerCase term)
      then some (toMatchEntry pd) else none
  | none => none

set_option maxRecDepth 16000

/-! ## Association-list lemmas (JS `Map` behaviour) -/

theorem mapGet?_cons (q : String × α) (m : List (String × α)) (k : String) :
    mapGet? (q :: m) k = if q.1 == k then some q.2 else mapGet? m k := by
  by_cases h : q.1 == k
  · simp [mapGet?, List.find?_cons_of_pos, h]
  · simp only [Bool.not_eq_true] at h
    simp [mapGet?, List.find?_cons_of_neg, h]

theorem mapHas_cons (q : String × α) (m : List (String × α)) (k : String) :
    mapHas (q :: m) k = (q.1 == k || mapHas m k) := by
  simp [mapHas, List.any_cons]

theorem mapHas_eq_isSome (m : List (String × α)) (k : String) :
    mapHas m k = (mapGet? m k).isSome := by
  induction m with
  | nil => rfl
  | cons q rest ih =>
    rw [mapHas_cons, mapGet?_cons]
    by_cases h : q.1 == k <;> simp [h, ih]

theorem mapGet?_replace_self (m : List (String × α)) (k : String) (v : α)
    (hm : mapHas m k = true) :
    mapGet? (m.map (fun p => if p.1 == k then (k, v) else p)) k = some v := by
  induction m with
  | nil => simp [mapHas] at hm
  | cons q rest ih =>
    rw [List.map_cons]
    by_cases hq : q.1 = k
    · rw [if_pos (by simpa using hq), mapGet?_cons, if_pos (by simp)]
    · rw [if_neg (by simpa using hq), mapGet?_cons, if_neg (by simpa using hq)]
      apply ih
      rw [mapHas_cons] at hm
      rwa [beq_eq_false_iff_ne.mpr hq, Bool.false_or] at hm

theorem mapGet?_replace_ne (m : List (String × α)) (k k' : String) (v : α)
    (hne : k' ≠ k) :
    mapGet? (m.map (fun p => if p.1 == k then (k, v) else p)) k' =
      mapGet? m k' := by
  have hkk' : ¬((k == k') = true) := fun h => hne (beq_iff_eq.mp h).symm
  induction m with
  | nil => rfl
  | cons q rest ih =>
    rw [List.map_cons]
    by_cases hq : q.1 = k
    · have hqk' : ¬((q.1 == k') = true) := fun h =>
        hne ((hq ▸ beq_iff_eq.mp h : k = k')).symm
      rw [if_pos (by simpa using hq), mapGet?_cons, mapGet?_cons,
        if_neg hkk', if_neg hqk']
      exact ih
    · rw [if_neg (by simpa using hq), mapGet?_cons, mapGet?_cons]
      by_cases hq' : q.1 = k'
      · rw [if_pos (by simpa using hq'), if_pos (by simpa using hq')]
      · rw [if_neg (by simpa using hq'), if_neg (by simpa using hq')]
        exact ih

theorem mapGet?_append_single_self (m : List (String × α)) (k : String) (v : α)
    (hm : mapGet? m k = none) : mapGet? (m ++ [(k, v)]) k = some v := by
  induction m with
  | nil => rw [List.nil_append, mapGet?_cons, if_pos (by simp)]
  | cons q rest ih =>
    rw [mapGet?_cons] at hm
    by_cases hq : q.1 = k
    · rw [if_pos (by simpa using hq)] at hm
      exact absurd hm (by simp)
    · rw [if_neg (by simpa using hq)] at hm
      rw [List.cons_append, mapGet?_cons, if_neg (by simpa using hq)]
      exact ih hm

theorem mapGet?_append_single_ne (m : List (String × α)) (k k' : String) (v : α)
    (hne : k' ≠ k) : mapGet? (m ++ [(k, v)]) k' = mapGet? m k' := by
  have hkk' : ¬((k == k') = true) := fun h => hne (beq_iff_eq.mp h).symm
  induction m with
  | nil => rw [List.nil_append, mapGet?_cons, if_neg hkk']
  | cons q rest ih =>
    rw [List.cons_append, mapGet?_cons, mapGet?_cons]
    by_cases hq : q.1 = k'
    · rw [if_pos (by simpa using hq), if_pos (by simpa using hq)]
    · rw [if_neg (by simpa using hq), if_neg (by simpa using hq)]
      exact ih

theorem mapGet?_mapSet_self (m : List (String × α)) (k : String) (v : α) :
    mapGet? (mapSet m k v) k = some v := by
  unfold mapSet
  by_cases hm : mapHas m k
  · simp only [hm, if_true]
    exact mapGet?_replace_self m k v hm
  · simp only [hm, if_false]
    apply mapGet?_append_single_self
    rw [mapHas_eq_isSome] at hm
    cases h : mapGet? m k
    · rfl
    · rw [h] at hm; simp at hm

theorem mapGet?_mapSet_ne (m : List (String × α)) (k k' : String) (v : α)
    (hne : k' ≠ k) : mapGet? (mapSet m k v) k' = mapGet? m k' := by
  unfold mapSet
  by_cases hm : mapHas m k
  · simp only [hm, if_true]
    exact mapGet?_replace_ne m k k' v hne
  · simp only [hm, if_false]
    exact mapGet?_append_single_ne m k k' v hne

theorem mapHas_mapSet_of (m : List (String × α)) (k k' : String) (v : α)
    (h : mapHas m k' = true) : mapHas (mapSet m k v) k' = true := by
  rw [mapHas_eq_isSome] at h ⊢
  by_cases hk : k' = k
  · subst hk; rw [mapGet?_mapSet_self]; rfl
  · rw [mapGet?_mapSet_ne _ _ _ _ hk]; exact h

/-! ## String-append cancellation -/

theorem string_append_right_cancel {a b c : String} (h : a ++ c = b ++ c) :
    a = b := by
  apply String.ext
  have h2 := congrArg String.data h
  simp only [String.data_append] at h2
  exact List.append_cancel_right h2

theorem string_append_left_cancel {a b c : String} (h : a ++ b = a ++ c) :
    b = c := by
  apply String.ext
  have h2 := congrArg String.data h
  simp only [String.data_append] at h2
  exact List.append_cancel_left h2

/-- Fixing the coordinate strings, `getCacheKey` is injective in the
date. -/
theorem getCacheKey_inj_date {d1 d2 lat lng : String}
    (h : getCacheKey d1 lat lng = getCacheKey d2 lat lng) : d1 = d2 :=
  string_append_right_cancel (string_append_right_cancel
    (string_append_right_cancel (string_append_right_cancel h)))

/-! ## Lexicographic string order (JS code-unit comparison) -/

theorem charsLt_iff_lex : ∀ (x y : List Char),
    charsLt x y = true ↔ List.Lex charNatLt x y
  | _ :: _, [] => by
    constructor
    · intro h; exact absurd h (by rw [charsLt]; simp)
    · intro h; cases h
  | [], [] => by
    constructor
    · intro h; exact absurd h (by rw [charsLt]; simp)
    · intro h; cases h
  | [], b :: bs => by
    rw [charsLt]
    exact ⟨fun _ => List.Lex.nil, fun _ => rfl⟩
  | a :: as, b :: bs => by
    rw [charsLt]
    by_cases hab : a.toNat < b.toNat
    · rw [if_pos hab]
      exact ⟨fun _ => List.Lex.rel hab, fun _ => rfl⟩
    · rw [if_neg hab]
      by_cases hba : b.toNat < a.toNat
      · rw [if_pos hba]
        constructor
        · intro h; cases h
        · intro h
          cases h with
          | cons h2 => exact absurd hba (Nat.lt_irrefl _)
          | rel h2 => exact absurd h2 hab
      · rw [if_neg hba]
        have hEq : a = b := Char.ext (UInt32.toNat.inj (Nat.le_antisymm
          (Nat.le_of_not_lt hba) (Nat.le_of_not_lt hab)))
        subst hEq
        rw [charsLt_iff_lex as bs]
        constructor
        · exact fun h => List.Lex.cons h
        · intro h
          cases h with
          | cons h2 => exact h2
          | rel h2 => exact absurd h2 (Nat.lt_irrefl _)

theorem charsLt_trans : ∀ {x y z : List Char}, charsLt x y = true →
    charsLt y z = true → charsLt x z = true
  | _, [], _, hxy, _ => by rw [charsLt] at hxy; simp at hxy
  | _, _ :: _, [], _, hyz => by rw [charsLt] at hyz; simp at hyz
  | [], _ :: _, _ :: _, _, _ => by rw [charsLt]
  | a :: as, b :: bs, c :: cs, hxy, hyz => by
    rw [charsLt] at hxy hyz ⊢
    by_cases hab : a.toNat < b.toNat
    · by_cases hbc : b.toNat < c.toNat
      · rw [if_pos (Nat.lt_trans hab hbc)]
      · rw [if_neg hbc] at hyz
        by_cases hcb : c.toNat < b.toNat
        · rw [if_pos hcb] at hyz; simp at hyz
        · have hac : a.toNat < c.toNat :=
            Nat.lt_of_lt_of_le hab (Nat.le_of_not_lt hcb)
          rw [if_pos hac]
    · rw [if_neg hab] at hxy
      by_cases hba : b.toNat < a.toNat
      · rw [if_pos hba] at hxy; simp at hxy
      · rw [if_neg hba] at hxy
        by_cases hbc : b.toNat < c.toNat
        · have hac : a.toNat < c.toNat :=
            Nat.lt_of_le_of_lt (Nat.le_of_not_lt hba) hbc
          rw [if_pos hac]
        · rw [if_neg hbc] at hyz
          by_cases hcb : c.toNat < b.toNat
          · rw [if_pos hcb] at hyz; simp at hyz
          · rw [if_neg hcb] at hyz
            have hac : ¬a.toNat < c.toNat := fun h =>
              hbc (Nat.lt_of_le_of_lt (Nat.le_of_not_lt hab) h)
            have hca : ¬c.toNat < a.toNat := fun h =>
              hba (Nat.lt_of_le_of_lt (Nat.le_of_not_lt hcb) h)
            rw [if_neg hac, if_neg hca]
            exact charsLt_trans hxy hyz

theorem charsLt_asymm : ∀ {x y : List Char}, charsLt x y = true →
    charsLt y x = false
  | _, [], hxy => by rw [charsLt] at hxy; simp at hxy
  | [], _ :: _, _ => by rw [charsLt]
  | a :: as, b :: bs, hxy => by
    rw [charsLt] at hxy ⊢
    by_cases hab : a.toNat < b.toNat
    · rw [if_neg (Nat.lt_asymm hab), if_pos hab]
    · rw [if_neg hab] at hxy
      by_cases hba : b.toNat < a.toNat
      · rw [if_pos hba] at hxy; simp at hxy
      · rw [if_neg hba] at hxy
        rw [if_neg hba, if_neg hab]
        exact charsLt_asymm hxy

theorem charsLt_conn : ∀ {x y : List Char}, charsLt x y = false →
    charsLt y x = false → x = y
  | [], [], _, _ => rfl
  | [], _ :: _, hxy, _ => by rw [charsLt] at hxy; simp at hxy
  | _ :: _, [], _, hyx => by rw [charsLt] at hyx; simp at hyx
  | a :: as, b :: bs, hxy, hyx => by
    rw [charsLt] at hxy hyx
    by_cases hab : a.toNat < b.toNat
    · rw [if_pos hab] at hxy; simp at hxy
    · rw [if_neg hab] at hxy
      by_cases hba : b.toNat < a.toNat
      · rw [if_pos hba] at hyx; simp at hyx
      · rw [if_neg hba] at hxy
        rw [if_neg hba, if_neg hab] at hyx
        have hEq : a = b := Char.ext (UInt32.toNat.inj (Nat.le_antisymm
          (Nat.le_of_not_lt hba) (Nat.le_of_not_lt hab)))
        rw [hEq, charsLt_conn hxy hyx]

theorem chainAsc_iff (l : List String) :
    chainAsc l = true ↔
      List.Chain' (fun a b => List.Lex charNatLt a.data b.data) l := by
  induction l with
  | nil => simp [chainAsc]
  | cons a rest ih =>
    cases rest with
    | nil => simp [chainAsc]
    | cons b r =>
      rw [chainAsc, Bool.and_eq_true, charsLt_iff_lex, List.chain'_cons]
      exact and_congr Iff.rfl ih

/-- Splitting a character list at a separator character that occurs in
neither prefix is unambiguous. -/
theorem underscoreSplit : ∀ (a₁ a₂ b₁ b₂ : List Char),
    '_' ∉ a₁ → '_' ∉ a₂ → a₁ ++ '_' :: b₁ = a₂ ++ '_' :: b₂ →
    a₁ = a₂ ∧ b₁ = b₂
  | [], [], b₁, b₂, _, _, h => ⟨rfl, by simpa using h⟩
  | [], x :: xs, b₁, b₂, _, h₂, h => by
    rw [List.nil_append, List.cons_append] at h
    have hx := (List.cons.inj h).1
    exact absurd (by rw [hx]; exact List.mem_cons_self x xs) h₂
  | x :: xs, [], b₁, b₂, h₁, _, h => by
    rw [List.cons_append, List.nil_append] at h
    have hx := (List.cons.inj h).1
    exact absurd (by rw [← hx]; exact List.mem_cons_self x xs) h₁
  | x :: xs, y :: ys, b₁, b₂, h₁, h₂, h => by
    rw [List.cons_append, List.cons_append] at h
    obtain ⟨hxy, ht⟩ := List.cons.inj h
    have hrec := underscoreSplit xs ys b₁ b₂
      (fun hm => h₁ (List.mem_cons_of_mem _ hm))
      (fun hm => h₂ (List.mem_cons_of_mem _ hm)) ht
    exact ⟨by rw [hxy, hrec.1], hrec.2⟩

/-! ## Unfolding lemmas for `getPanchangData` -/

theorem getPanchangData_hit (p : Panchang) (c : Cache) (d la ln : String)
    (r : AlmanacRecord) (h : mapGet? c (getCacheKey d la ln) = some r) :
    getPanchangData p c d la ln = (Except.ok r, c, []) := by
  simp only [getPanchangData]
  rw [h]

theorem getPanchangData_miss_ok (p : Panchang) (c : Cache) (d la ln : String)
    (cf : CalendarFields) (st : SunTimes)
    (h : mapGet? c (getCacheKey d la ln) = none)
    (hcal : p.calendar d la ln = Except.ok cf)
    (hsun : p.sunTimer d la ln = Except.ok st) :
    getPanchangData p c d la ln =
      (Except.ok (buildRecord d la ln cf st),
        mapSet c (getCacheKey d la ln) (buildRecord d la ln cf st),
        [WarmEv.compute d la ln, WarmEv.store (getCacheKey d la ln)]) := by
  simp only [getPanchangData]
  rw [h, hcal, hsun]

theorem getPanchangData_miss_errCal (p : Panchang) (c : Cache)
    (d la ln e : String)
    (h : mapGet? c (getCacheKey d la ln) = none)
    (hcal : p.calendar d la ln = Except.error e) :
    getPanchangData p c d la ln =
      (Except.error ("Failed to calculate panchang: " ++ e), c,
        [WarmEv.compute d la ln]) := by
  simp only [getPanchangData]
  rw [h, hcal]

theorem getPanchangData_miss_errSun (p : Panchang) (c : Cache)
    (d la ln e : String) (cf : CalendarFields)
    (h : mapGet? c (getCacheKey d la ln) = none)
    (hcal : p.calendar d la ln = Except.ok cf)
    (hsun : p.sunTimer d la ln = Except.error e) :
    getPanchangData p c d la ln =
      (Except.error ("Failed to calculate panchang: " ++ e), c,
        [WarmEv.compute d la ln]) := by
  simp only [getPanchangData]
  rw [h, hcal, hsun]

/-- A successful `getPanchangData` call leaves the returned record stored
under its key in the returned cache. -/
theorem getPanchangData_ok_mapGet? (p : Panchang) (c : Cache)
    (d la ln : String) (r : AlmanacRecord) (c' : Cache) (evs : List WarmEv)
    (h : getPanchangData p c d la ln = (Except.ok r, c', evs)) :
    mapGet? c' (getCacheKey d la ln) = some r := by
  cases hk : mapGet? c (getCacheKey d la ln) with
  | some r0 =>
    rw [getPanchangData_hit p c d la ln r0 hk] at h
    simp only [Prod.mk.injEq, Except.ok.injEq] at h
    obtain ⟨hr, hc, -⟩ := h
    rw [← hc, hk, hr]
  | none =>
    cases hcal : p.calendar d la ln with
    | error e =>
      rw [getPanchangData_miss_errCal p c d la ln e hk hcal] at h
      simp at h
    | ok cf =>
      cases hsun : p.sunTimer d la ln with
      | error e =>
        rw [getPanchangData_miss_errSun p c d la ln e cf hk hcal hsun] at h
        simp at h
      | ok st =>
        rw [getPanchangData_miss_ok p c d la ln cf st hk hcal hsun] at h
        simp only [Prod.mk.injEq, Except.ok.injEq] at h
        obtain ⟨hr, hc, -⟩ := h
        rw [← hc, ← hr]
        exact mapGet?_mapSet_self c (getCacheKey d la ln) (buildRecord d la ln cf st)

/-! ## Claim C6: string-exact cache keys -/

/-- C6 counterexample: the claim "two lookups whose latitude or longitude
strings differ in any character produce distinct ResultCache entries" is
false as stated.  With the same date, the coordinate pairs
`("1", "2_3")` and `("1_2", "3")` differ character-wise, yet produce the
same key, so a record stored by the first lookup is returned for the
second (one shared entry, not two distinct ones). -/
theorem getCacheKey_collision_counterexample_C6 :
    getCacheKey "2024-01-01" "1" "2_3" = getCacheKey "2024-01-01" "1_2" "3" ∧
    ("1" : String) ≠ "1_2" ∧ ("2_3" : String) ≠ "3" ∧
    mapGet? (mapSet ([] : Cache) (getCacheKey "2024-01-01" "1" "2_3") sampleRecord)
      (getCacheKey "2024-01-01" "1_2" "3") = some sampleRecord :=
  ⟨rfl, by decide, by decide, by decide⟩

/-- C6 (amended): cache keys compare string-exactly, with the proviso that
the key is the underscore-joined concatenation: keys are equal iff those
concatenations are equal, and provided the coordinate strings do not
contain the separator `'_'`, two lookups for the same date agree on the
key iff both coordinate strings agree exactly — so no numeric coalescing
ever happens (e.g. `"12.9716"` vs `"12.97160"` are distinct entries). -/
theorem getCacheKey_exact_C6 (date lat₁ lng₁ lat₂ lng₂ : String)
    (h₁ : '_' ∉ lat₁.data) (h₂ : '_' ∉ lat₂.data) :
    (getCacheKey date lat₁ lng₁ = getCacheKey date lat₂ lng₂ ↔
      (lat₁ = lat₂ ∧ lng₁ = lng₂)) ∧
    (getCacheKey date lat₁ lng₁ = date ++ "_" ++ lat₁ ++ "_" ++ lng₁) := by
  constructor
  · constructor
    · intro h
      have hd := congrArg String.data h
      simp only [getCacheKey, String.data_append] at hd
      have hd2 : date.data ++ '_' :: (lat₁.data ++ '_' :: lng₁.data) =
          date.data ++ '_' :: (lat₂.data ++ '_' :: lng₂.data) := by
        simpa [List.append_assoc] using hd
      have hd3 := List.append_cancel_left hd2
      have hd4 := (List.cons.inj hd3).2
      obtain ⟨hla, hlg⟩ := underscoreSplit _ _ _ _ h₁ h₂ hd4
      exact ⟨String.ext hla, String.ext hlg⟩
    · rintro ⟨rfl, rfl⟩
      rfl
  · rfl

/-- C6 witness: the numerically equal but textually different latitudes
from the claim give distinct cache keys. -/
theorem getCacheKey_exact_C6_witness :
    getCacheKey "2024-01-01" "12.9716" "77.5946" ≠
      getCacheKey "2024-01-01" "12.97160" "77.5946" := by
  intro hk
  have h := (getCacheKey_exact_C6 "2024-01-01" "12.9716" "77.5946"
    "12.97160" "77.5946" (by decide) (by decide)).1.mp hk
  exact absurd h.1 (by decide)

/-! ## Claim C4: year enumeration -/


/-- C4: the enumerator produces one date string per calendar day of the
year (monthly lengths from the Gregorian rule, 366 for a leap year such
as 2024 and 365 otherwise, e.g. 2023); for 2024 the sequence starts at
`2024-01-01`, ends at `2024-12-31`, is strictly ascending in
lexicographic (code point) order, and every element has the zero-padded
`YYYY-MM-DD` shape. -/
theorem getDatesInCurrentYear_C4 (y : Nat) :
    (getDatesInCurrentYear y).length = (if isLeapYear y then 366 else 365) ∧
    (getDatesInCurrentYear 2024).length = 366 ∧
    (getDatesInCurrentYear 2024).head? = some "2024-01-01" ∧
    (getDatesInCurrentYear 2024).getLast? = some "2024-12-31" ∧
    List.Chain' (fun a b => List.Lex charNatLt a.data b.data)
      (getDatesInCurrentYear 2024) ∧
    (getDatesInCurrentYear 2024).all isDateShape = true ∧
    (getDatesInCurrentYear 2023).length = 365 := by
  refine ⟨?_, by decide, by decide, by decide,
    (chainAsc_iff _).mp (by decide), by decide, by decide⟩
  unfold getDatesInCurrentYear
  rw [show List.range' 1 12 = [1, 2, 3, 4, 5, 6, 7, 8, 9, 10, 11, 12] from rfl]
  simp only [List.flatMap_cons, List.flatMap_nil, List.append_nil,
    List.length_append, List.length_map, List.length_range', List.length_nil]
  by_cases h : isLeapYear y
  · simp [daysInMonth, h]
  · simp [daysInMonth, h]

/-! ## Claim C10: truthiness-based validation of `POST /cache-year` -/

/-- C10: the missing-parameter check of `POST /cache-year` tests JS
truthiness, not presence: a body carrying the numeric value `0` for `lat`
or for `lng` — a present, valid coordinate — is rejected with
HTTP 400 and error "Missing lat or lng", although `0` is not the absent
value; truthy values do start the warm-up. -/
theorem cacheYearValidation_C10 (p : Panchang) (cache : Cache) (year : Nat) :
    cacheYearHandler p cache year (JVal.num 0) (JVal.num 77) =
      Except.error (400, "Missing lat or lng") ∧
    cacheYearHandler p cache year (JVal.num 12) (JVal.num 0) =
      Except.error (400, "Missing lat or lng") ∧
    JVal.num 0 ≠ JVal.undef ∧
    (JVal.num 0).truthy = false ∧
    cacheYearHandler p cache year (JVal.str "12.9716") (JVal.str "77.5946") =
      Except.ok (warmTrace p "12.9716" "77.5946" year cache) :=
  ⟨rfl, rfl, by decide, rfl, rfl⟩

/-! ## Claim C1: memoized single-date lookup -/

/-- C1: `getPanchangData` (a) on a hit returns the stored record with the
cache unchanged and without invoking the computer (empty event trace);
(b) after any successful call, an identical second call returns the same
record, changes nothing and performs no computation; (c) on a miss with a
successful computation it returns the built record and stores it under the
key; (d) if the computer throws, the wrapped error propagates, nothing is
stored (the cache is returned unchanged), and an identical subsequent call
invokes the computer again. -/
theorem getPanchangData_C1
    (p₁ : Panchang) (c₁ : Cache) (d₁ la₁ ln₁ : String) (r₁ : AlmanacRecord)
    (p₂ : Panchang) (c₂ c₂' : Cache) (d₂ la₂ ln₂ : String)
    (r₂ : AlmanacRecord) (evs₂ : List WarmEv)
    (p₃ : Panchang) (c₃ : Cache) (d₃ la₃ ln₃ : String)
    (cf₃ : CalendarFields) (sun₃ : SunTimes)
    (p₄ : Panchang) (c₄ : Cache) (d₄ la₄ ln₄ e₄ : String)
    (h₁ : mapGet? c₁ (getCacheKey d₁ la₁ ln₁) = some r₁)
    (h₂ : getPanchangData p₂ c₂ d₂ la₂ ln₂ = (Except.ok r₂, c₂', evs₂))
    (h₃ : mapGet? c₃ (getCacheKey d₃ la₃ ln₃) = none)
    (h₄ : p₃.calendar d₃ la₃ ln₃ = Except.ok cf₃)
    (h₅ : p₃.sunTimer d₃ la₃ ln₃ = Except.ok sun₃)
    (h₆ : mapGet? c₄ (getCacheKey d₄ la₄ ln₄) = none)
    (h₇ : p₄.calendar d₄ la₄ ln₄ = Except.error e₄) :
    getPanchangData p₁ c₁ d₁ la₁ ln₁ = (Except.ok r₁, c₁, []) ∧
    getPanchangData p₂ c₂' d₂ la₂ ln₂ = (Except.ok r₂, c₂', []) ∧
    getPanchangData p₃ c₃ d₃ la₃ ln₃ =
      (Except.ok (buildRecord d₃ la₃ ln₃ cf₃ sun₃),
        mapSet c₃ (getCacheKey d₃ la₃ ln₃) (buildRecord d₃ la₃ ln₃ cf₃ sun₃),
        [WarmEv.compute d₃ la₃ ln₃, WarmEv.store (getCacheKey d₃ la₃ ln₃)]) ∧
    mapGet? (mapSet c₃ (getCacheKey d₃ la₃ ln₃) (buildRecord d₃ la₃ ln₃ cf₃ sun₃))
      (getCacheKey d₃ la₃ ln₃) = some (buildRecord d₃ la₃ ln₃ cf₃ sun₃) ∧
    getPanchangData p₄ c₄ d₄ la₄ ln₄ =
      (Except.error ("Failed to calculate panchang: " ++ e₄), c₄,
        [WarmEv.compute d₄ la₄ ln₄]) ∧
    (getPanchangData p₄ (getPanchangData p₄ c₄ d₄ la₄ ln₄).2.1 d₄ la₄ ln₄).2.2 =
      [WarmEv.compute d₄ la₄ ln₄] := by
  have herr := getPanchangData_miss_errCal p₄ c₄ d₄ la₄ ln₄ e₄ h₆ h₇
  refine ⟨getPanchangData_hit p₁ c₁ d₁ la₁ ln₁ r₁ h₁,
    getPanchangData_hit p₂ c₂' d₂ la₂ ln₂ r₂
      (getPanchangData_ok_mapGet? p₂ c₂ d₂ la₂ ln₂ r₂ c₂' evs₂ h₂),
    getPanchangData_miss_ok p₃ c₃ d₃ la₃ ln₃ cf₃ sun₃ h₃ h₄ h₅,
    mapGet?_mapSet_self c₃ (getCacheKey d₃ la₃ ln₃) (buildRecord d₃ la₃ ln₃ cf₃ sun₃),
    herr, ?_⟩
  rw [herr, getPanchangData_miss_errCal p₄ c₄ d₄ la₄ ln₄ e₄ h₆ h₇]

/-- C1 witness: a concrete instantiation of all four scenarios (hit on a
one-entry cache; successful call then repeat; miss with the constant
computer; miss with the throwing computer). -/
theorem getPanchangData_C1_witness :
    getPanchangData constPanchang
      [(getCacheKey "2024-01-01" "1" "2", sampleRecord)] "2024-01-01" "1" "2" =
      (Except.ok sampleRecord,
        [(getCacheKey "2024-01-01" "1" "2", sampleRecord)], []) ∧
    getPanchangData constPanchang
      [(getCacheKey "2024-01-01" "1" "2", sampleRecord)] "2024-01-01" "1" "2" =
      (Except.ok sampleRecord,
        [(getCacheKey "2024-01-01" "1" "2", sampleRecord)], []) ∧
    getPanchangData errPanchang [] "2024-03-05" "1" "2" =
      (Except.error "Failed to calculate panchang: Invalid Date", [],
        [WarmEv.compute "2024-03-05" "1" "2"]) := by
  have h := getPanchangData_C1
    constPanchang [(getCacheKey "2024-01-01" "1" "2", sampleRecord)]
      "2024-01-01" "1" "2" sampleRecord
    constPanchang [] [(getCacheKey "2024-01-01" "1" "2", sampleRecord)]
      "2024-01-01" "1" "2" sampleRecord
      [WarmEv.compute "2024-01-01" "1" "2",
        WarmEv.store (getCacheKey "2024-01-01" "1" "2")]
    constPanchang [] "2024-01-01" "1" "2"
      ⟨"Purnima", "Shukla", "Rohini", "Siddhi", "Bava", "Chaitra", "Aries",
        "Vasanta"⟩ ⟨"06:00", "18:00"⟩
    errPanchang [] "2024-03-05" "1" "2" "Invalid Date"
    (by decide) rfl (by decide) rfl rfl (by decide) rfl
  refine ⟨h.1, h.2.1, ?_⟩
  have h5 := h.2.2.2.2.1
  simpa using h5

/-! ## Claim C7: cache clear -/

/-- C7: after `DELETE /cache`, the stats report both sizes as zero, and a
lookup for any previously cached key runs against the empty cache: it
behaves exactly as on an empty server state and its first event is an
invocation of the computer (a fresh computation), not a return of the old
record. -/
theorem clearCache_C7 (st : ServerState) (p : Panchang) (d lat lng : String)
    (r : AlmanacRecord)
    (_h : mapGet? st.panchangCache (getCacheKey d lat lng) = some r) :
    cacheStats (clearCache st).1 = (0, 0, "Cache statistics") ∧
    getPanchangData p (clearCache st).1.panchangCache d lat lng =
      getPanchangData p [] d lat lng ∧
    (getPanchangData p (clearCache st).1.panchangCache d lat lng).2.2.head? =
      some (WarmEv.compute d lat lng) ∧
    mapGet? (clearCache st).1.panchangCache (getCacheKey d lat lng) = none ∧
    (clearCache st).2 = "Cache cleared successfully" := by
  refine ⟨rfl, rfl, ?_, rfl, rfl⟩
  show (getPanchangData p [] d lat lng).2.2.head? = some (WarmEv.compute d lat lng)
  cases hcal : p.calendar d lat lng with
  | error e => rw [getPanchangData_miss_errCal p [] d lat lng e rfl hcal]; rfl
  | ok cf =>
    cases hsun : p.sunTimer d lat lng with
    | error e =>
      rw [getPanchangData_miss_errSun p [] d lat lng e cf rfl hcal hsun]; rfl
    | ok stimes =>
      rw [getPanchangData_miss_ok p [] d lat lng cf stimes rfl hcal hsun]; rfl

/-- C7 witness: concrete previously cached key, cleared, then freshly
recomputed. -/
theorem clearCache_C7_witness :
    cacheStats (clearCache ⟨[(getCacheKey "2024-01-01" "1" "2", sampleRecord)],
      []⟩).1 = (0, 0, "Cache statistics") ∧
    (getPanchangData constPanchang
      (clearCache ⟨[(getCacheKey "2024-01-01" "1" "2", sampleRecord)], []⟩).1.panchangCache
      "2024-01-01" "1" "2").2.2.head? = some (WarmEv.compute "2024-01-01" "1" "2") := by
  have h := clearCache_C7 ⟨[(getCacheKey "2024-01-01" "1" "2", sampleRecord)], []⟩
    constPanchang "2024-01-01" "1" "2" sampleRecord (by decide)
  exact ⟨h.1, h.2.2.1⟩

/-! ## Claim C3: search cache key case handling -/

/-- C3 counterexample: the lookup key uses the term as given, not
lowercased.  With both case variants of the term cached under different
keys, the two requests (differing only in term case, identically
lowercasing) hit different entries and return different results — so the
entry consulted is NOT the one keyed by the lowercased term. -/
theorem searchTithi_caseKey_counterexample_C3 :
    (searchTithi constPanchang caseState "purnima" "1" "2" 2024).1 =
      resultLower ∧
    (searchTithi constPanchang caseState "Purnima" "1" "2" 2024).1 =
      resultUpper ∧
    resultLower ≠ resultUpper ∧
    jsToLowerCase "Purnima" = jsToLowerCase "purnima" :=
  ⟨rfl, rfl, by decide, by decide⟩

/-- C3 (amended): the search canonicalizes its cache lookup via the
ORIGINAL-case key `(term, latitude, longitude)`: a cached entry under the
as-given term is returned verbatim with no scan and no state change, and
two terms that differ in any character (in particular two case variants)
consult distinct keys, hence distinct cache entries. -/
theorem searchTithi_key_C3 (p : Panchang) (st : ServerState)
    (tithi tithi' lat lng : String) (year : Nat) (r : SearchResult)
    (h : mapGet? st.tithiSearchCache (tithi ++ "_" ++ lat ++ "_" ++ lng) = some r)
    (hne : tithi ≠ tithi') :
    searchTithi p st tithi lat lng year = (r, st) ∧
    (tithi ++ "_" ++ lat ++ "_" ++ lng) ≠
      (tithi' ++ "_" ++ lat ++ "_" ++ lng) := by
  constructor
  · simp only [searchTithi]
    rw [h]
  · intro hc
    exact hne (string_append_right_cancel (string_append_right_cancel
      (string_append_right_cancel (string_append_right_cancel hc))))

/-- C3 witness: the lowercase-keyed entry is returned for the lowercase
request, and the uppercase variant has a distinct key. -/
theorem searchTithi_key_C3_witness :
    searchTithi constPanchang caseState "purnima" "1" "2" 2024 =
      (resultLower, caseState) ∧
    ("purnima" ++ "_" ++ "1" ++ "_" ++ "2" : String) ≠
      ("PURNIMA" ++ "_" ++ "1" ++ "_" ++ "2" : String) := by
  have h := searchTithi_key_C3 constPanchang caseState "purnima" "PURNIMA"
    "1" "2" 2024 resultLower (by decide) (by decide)
  exact ⟨h.1, h.2⟩

/-! ## Structure of the batch-warmer event trace -/

theorem splitOnYield_ne_nil : ∀ (l : List WarmEv), splitOnYield l ≠ []
  | [] => by simp [splitOnYield]
  | WarmEv.yield :: rest => by simp [splitOnYield]
  | WarmEv.compute d la ln :: rest => by
    simp only [splitOnYield]
    cases splitOnYield rest <;> simp
  | WarmEv.store k :: rest => by
    simp only [splitOnYield]
    cases splitOnYield rest <;> simp
  | WarmEv.errorLog d :: rest => by
    simp only [splitOnYield]
    cases splitOnYield rest <;> simp
  | WarmEv.respond n loc :: rest => by
    simp only [splitOnYield]
    cases splitOnYield rest <;> simp

theorem splitOnYield_cons_ne (e : WarmEv) (rest : List WarmEv)
    (h : e ≠ WarmEv.yield) :
    ∃ seg segs, splitOnYield rest = seg :: segs ∧
      splitOnYield (e :: rest) = (e :: seg) :: segs := by
  cases hs : splitOnYield rest with
  | nil => exact absurd hs (splitOnYield_ne_nil rest)
  | cons seg segs =>
    refine ⟨seg, segs, rfl, ?_⟩
    cases e with
    | yield => exact absurd rfl h
    | compute d la ln => simp [splitOnYield, hs]
    | store k => simp [splitOnYield, hs]
    | errorLog d => simp [splitOnYield, hs]
    | respond n loc => simp [splitOnYield, hs]

/-- Prepending a yield-free block extends the first segment. -/
theorem splitOnYield_append_yieldFree (evs : List WarmEv)
    (hfree : ∀ e ∈ evs, e ≠ WarmEv.yield) (rest : List WarmEv) :
    ∃ seg segs, splitOnYield rest = seg :: segs ∧
      splitOnYield (evs ++ rest) = (evs ++ seg) :: segs := by
  induction evs with
  | nil =>
    cases hs : splitOnYield rest with
    | nil => exact absurd hs (splitOnYield_ne_nil rest)
    | cons seg segs => exact ⟨seg, segs, rfl, by simpa using hs⟩
  | cons e evs ih =>
    obtain ⟨seg, segs, h1, h2⟩ := ih (fun x hx => hfree x (List.mem_cons_of_mem _ hx))
    obtain ⟨seg', segs', h3, h4⟩ := splitOnYield_cons_ne e (evs ++ rest)
      (hfree e (List.mem_cons_self _ _))
    rw [h2] at h3
    obtain ⟨rfl, rfl⟩ := List.cons.inj h3
    exact ⟨seg, segs, h1, by simpa [List.cons_append] using h4⟩

/-- A yield between two blocks separates segments. -/
theorem splitOnYield_yield_cons (rest : List WarmEv) :
    splitOnYield (WarmEv.yield :: rest) = [] :: splitOnYield rest := by
  simp [splitOnYield]

/-! ## Behaviour of `processRange` -/

theorem mapHas_false_iff (m : List (String × α)) (k : String) :
    mapHas m k = false ↔ mapGet? m k = none := by
  rw [mapHas_eq_isSome]
  cases mapGet? m k <;> simp

theorem processRange_cons_skip (p : Panchang) (lat lng d : String)
    (rest : List String) (c : Cache)
    (h : mapHas c (getCacheKey d lat lng) = true) :
    processRange p lat lng (d :: rest) c = processRange p lat lng rest c := by
  simp [processRange, h]

theorem processRange_cons_miss_ok (p : Panchang) (lat lng d : String)
    (rest : List String) (c : Cache) (cf : CalendarFields) (st : SunTimes)
    (h : mapHas c (getCacheKey d lat lng) = false)
    (hcal : p.calendar d lat lng = Except.ok cf)
    (hsun : p.sunTimer d lat lng = Except.ok st) :
    processRange p lat lng (d :: rest) c =
      ((processRange p lat lng rest
          (mapSet c (getCacheKey d lat lng) (buildRecord d lat lng cf st))).1,
        WarmEv.compute d lat lng ::
          WarmEv.store (getCacheKey d lat lng) ::
          (processRange p lat lng rest
            (mapSet c (getCacheKey d lat lng) (buildRecord d lat lng cf st))).2) := by
  have hget := (mapHas_false_iff c (getCacheKey d lat lng)).mp h
  simp only [processRange, h, Bool.false_eq_true, if_false,
    getPanchangData_miss_ok p c d lat lng cf st hget hcal hsun]
  rfl

theorem processRange_cons_miss_errCal (p : Panchang) (lat lng d e : String)
    (rest : List String) (c : Cache)
    (h : mapHas c (getCacheKey d lat lng) = false)
    (hcal : p.calendar d lat lng = Except.error e) :
    processRange p lat lng (d :: rest) c =
      ((processRange p lat lng rest c).1,
        WarmEv.compute d lat lng :: WarmEv.errorLog d ::
          (processRange p lat lng rest c).2) := by
  have hget := (mapHas_false_iff c (getCacheKey d lat lng)).mp h
  simp only [processRange, h, Bool.false_eq_true, if_false,
    getPanchangData_miss_errCal p c d lat lng e hget hcal]
  rfl

theorem processRange_cons_miss_errSun (p : Panchang) (lat lng d e : String)
    (rest : List String) (c : Cache) (cf : CalendarFields)
    (h : mapHas c (getCacheKey d lat lng) = false)
    (hcal : p.calendar d lat lng = Except.ok cf)
    (hsun : p.sunTimer d lat lng = Except.error e) :
    processRange p lat lng (d :: rest) c =
      ((processRange p lat lng rest c).1,
        WarmEv.compute d lat lng :: WarmEv.errorLog d ::
          (processRange p lat lng rest c).2) := by
  have hget := (mapHas_false_iff c (getCacheKey d lat lng)).mp h
  simp only [processRange, h, Bool.false_eq_true, if_false,
    getPanchangData_miss_errSun p c d lat lng e cf hget hcal hsun]
  rfl

/-- Any event emitted by `processRange` is a compute, store or errorLog
(never a yield and never a respond), and a compute event names a date of
the processed list whose key was not yet cached when the range started. -/
theorem processRange_events (p : Panchang) (lat lng : String) :
    ∀ (ds : List String) (c : Cache),
      ∀ e ∈ (processRange p lat lng ds c).2,
        e ≠ WarmEv.yield ∧ e.isRespond = false ∧
        (∀ d la ln, e = WarmEv.compute d la ln →
          d ∈ ds ∧ la = lat ∧ ln = lng ∧
            mapHas c (getCacheKey d lat lng) = false)
  | [], c => by simp [processRange]
  | d :: rest, c => by
    intro e he
    by_cases hh : mapHas c (getCacheKey d lat lng) = true
    · rw [processRange_cons_skip p lat lng d rest c hh] at he
      obtain ⟨h1, h2, h3⟩ := processRange_events p lat lng rest c e he
      exact ⟨h1, h2, fun d' la ln hc =>
        ⟨List.mem_cons_of_mem _ (h3 d' la ln hc).1, (h3 d' la ln hc).2.1,
          (h3 d' la ln hc).2.2.1, (h3 d' la ln hc).2.2.2⟩⟩
    · have hh' : mapHas c (getCacheKey d lat lng) = false := by
        cases hm : mapHas c (getCacheKey d lat lng)
        · rfl
        · exact absurd hm hh
      have hcompute : ∀ (c' : Cache),
          (∀ k, mapHas c k = true → mapHas c' k = true) →
          (∀ e2 ∈ (processRange p lat lng rest c').2,
            e2 ≠ WarmEv.yield ∧ e2.isRespond = false ∧
            (∀ d' la ln, e2 = WarmEv.compute d' la ln →
              d' ∈ d :: rest ∧ la = lat ∧ ln = lng ∧
                mapHas c (getCacheKey d' lat lng) = false)) := by
        intro c' hmono e2 he2
        obtain ⟨h1, h2, h3⟩ := processRange_events p lat lng rest c' e2 he2
        refine ⟨h1, h2, fun d' la ln hc => ?_⟩
        obtain ⟨hm, hla, hln, hhas⟩ := h3 d' la ln hc
        refine ⟨List.mem_cons_of_mem _ hm, hla, hln, ?_⟩
        cases hc0 : mapHas c (getCacheKey d' lat lng)
        · rfl
        · exact absurd (hmono _ hc0) (by rw [hhas]; simp)
      cases hcal : p.calendar d lat lng with
      | error er =>
        rw [processRange_cons_miss_errCal p lat lng d er rest c hh' hcal] at he
        simp only [List.mem_cons] at he
        rcases he with rfl | rfl | he
        · exact ⟨by simp, rfl, fun d' la ln hc => by
            obtain ⟨rfl, rfl, rfl⟩ :=
              (by injection hc with h1 h2 h3; exact ⟨h1, h2, h3⟩ :
                d = d' ∧ lat = la ∧ lng = ln)
            exact ⟨List.mem_cons_self _ _, rfl, rfl, hh'⟩⟩
        · exact ⟨by simp, rfl, fun d' la ln hc => by cases hc⟩
        · exact hcompute c (fun k hk => hk) e he
      | ok cf =>
        cases hsun : p.sunTimer d lat lng with
        | error er =>
          rw [processRange_cons_miss_errSun p lat lng d er rest c cf hh' hcal hsun] at he
          simp only [List.mem_cons] at he
          rcases he with rfl | rfl | he
          · exact ⟨by simp, rfl, fun d' la ln hc => by
              obtain ⟨rfl, rfl, rfl⟩ :=
                (by injection hc with h1 h2 h3; exact ⟨h1, h2, h3⟩ :
                  d = d' ∧ lat = la ∧ lng = ln)
              exact ⟨List.mem_cons_self _ _, rfl, rfl, hh'⟩⟩
          · exact ⟨by simp, rfl, fun d' la ln hc => by cases hc⟩
          · exact hcompute c (fun k hk => hk) e he
        | ok st =>
          rw [processRange_cons_miss_ok p lat lng d rest c cf st hh' hcal hsun] at he
          simp only [List.mem_cons] at he
          rcases he with rfl | rfl | he
          · exact ⟨by simp, rfl, fun d' la ln hc => by
              obtain ⟨rfl, rfl, rfl⟩ :=
                (by injection hc with h1 h2 h3; exact ⟨h1, h2, h3⟩ :
                  d = d' ∧ lat = la ∧ lng = ln)
              exact ⟨List.mem_cons_self _ _, rfl, rfl, hh'⟩⟩
          · exact ⟨by simp, rfl, fun d' la ln hc => by cases hc⟩
          · exact hcompute
              (mapSet c (getCacheKey d lat lng) (buildRecord d lat lng cf st))
              (fun k hk => mapHas_mapSet_of c (getCacheKey d lat lng) k _ hk) e he

/-- The cache only grows during `processRange`. -/
theorem processRange_mapHas_mono (p : Panchang) (lat lng : String) :
    ∀ (ds : List String) (c : Cache) (k : String),
      mapHas c k = true → mapHas (processRange p lat lng ds c).1 k = true
  | [], c, k => fun h => h
  | d :: rest, c, k => by
    intro h
    by_cases hh : mapHas c (getCacheKey d lat lng) = true
    · rw [processRange_cons_skip p lat lng d rest c hh]
      exact processRange_mapHas_mono p lat lng rest c k h
    · have hh' : mapHas c (getCacheKey d lat lng) = false := by
        cases hm : mapHas c (getCacheKey d lat lng)
        · rfl
        · exact absurd hm hh
      cases hcal : p.calendar d lat lng with
      | error er =>
        rw [processRange_cons_miss_errCal p lat lng d er rest c hh' hcal]
        exact processRange_mapHas_mono p lat lng rest c k h
      | ok cf =>
        cases hsun : p.sunTimer d lat lng with
        | error er =>
          rw [processRange_cons_miss_errSun p lat lng d er rest c cf hh' hcal hsun]
          exact processRange_mapHas_mono p lat lng rest c k h
        | ok st =>
          rw [processRange_cons_miss_ok p lat lng d rest c cf st hh' hcal hsun]
          exact processRange_mapHas_mono p lat lng rest
            (mapSet c (getCacheKey d lat lng) (buildRecord d lat lng cf st)) k
            (mapHas_mapSet_of c (getCacheKey d lat lng) k _ h)

/-- At most one computer invocation per date of the processed range. -/
theorem processRange_countCompute_le (p : Panchang) (lat lng : String) :
    ∀ (ds : List String) (c : Cache),
      ((processRange p lat lng ds c).2.countP WarmEv.isCompute) ≤ ds.length
  | [], c => by simp [processRange]
  | d :: rest, c => by
    by_cases hh : mapHas c (getCacheKey d lat lng) = true
    · rw [processRange_cons_skip p lat lng d rest c hh]
      exact Nat.le_trans (processRange_countCompute_le p lat lng rest c)
        (by simp)
    · have hh' : mapHas c (getCacheKey d lat lng) = false := by
        cases hm : mapHas c (getCacheKey d lat lng)
        · rfl
        · exact absurd hm hh
      cases hcal : p.calendar d lat lng with
      | error er =>
        rw [processRange_cons_miss_errCal p lat lng d er rest c hh' hcal,
          List.countP_cons_of_pos _ _ (by rfl),
          List.countP_cons_of_neg _ _ (by simp [WarmEv.isCompute])]
        have := processRange_countCompute_le p lat lng rest c
        simp only [List.length_cons]
        omega
      | ok cf =>
        cases hsun : p.sunTimer d lat lng with
        | error er =>
          rw [processRange_cons_miss_errSun p lat lng d er rest c cf hh' hcal hsun,
            List.countP_cons_of_pos _ _ (by rfl),
            List.countP_cons_of_neg _ _ (by simp [WarmEv.isCompute])]
          have := processRange_countCompute_le p lat lng rest c
          simp only [List.length_cons]
          omega
        | ok st =>
          rw [processRange_cons_miss_ok p lat lng d rest c cf st hh' hcal hsun,
            List.countP_cons_of_pos _ _ (by rfl),
            List.countP_cons_of_neg _ _ (by simp [WarmEv.isCompute])]
          have := processRange_countCompute_le p lat lng rest
            (mapSet c (getCacheKey d lat lng) (buildRecord d lat lng cf st))
          simp only [List.length_cons]
          omega

theorem takeWhile_append_all (f : WarmEv → Bool) (l r : List WarmEv)
    (h : ∀ x ∈ l, f x = true) :
    (l ++ r).takeWhile f = l ++ r.takeWhile f := by
  induction l with
  | nil => simp
  | cons a l ih =>
    rw [List.cons_append, List.takeWhile_cons, if_pos (h a (List.mem_cons_self _ _)),
      List.cons_append, ih (fun x hx => h x (List.mem_cons_of_mem _ hx))]

theorem dropWhile_append_all (f : WarmEv → Bool) (l r : List WarmEv)
    (h : ∀ x ∈ l, f x = true) :
    (l ++ r).dropWhile f = r.dropWhile f := by
  induction l with
  | nil => simp
  | cons a l ih =>
    rw [List.cons_append, List.dropWhile_cons, if_pos (h a (List.mem_cons_self _ _)),
      ih (fun x hx => h x (List.mem_cons_of_mem _ hx))]

/-- Every yield-delimited segment of the deferred batches contains at most
50 computer invocations. -/
theorem processDeferred_segments (p : Panchang) (lat lng : String)
    (dates : List String) (c : Cache) :
    ∀ seg ∈ splitOnYield (processDeferred p lat lng dates c).2,
      seg.countP WarmEv.isCompute ≤ 50 := by
  intro seg hseg
  have hfree : ∀ e ∈ (processRange p lat lng (dates.take 50) c).2,
      (fun e => e ≠ WarmEv.yield) e := fun e he =>
    (processRange_events p lat lng (dates.take 50) c e he).1
  have hcount : ((processRange p lat lng (dates.take 50) c).2.countP
      WarmEv.isCompute) ≤ 50 := by
    refine Nat.le_trans (processRange_countCompute_le p lat lng (dates.take 50) c) ?_
    rw [List.length_take]
    exact Nat.min_le_left _ _
  rw [processDeferred] at hseg
  by_cases h : 50 < dates.length
  · simp only [h, dif_pos] at hseg
    obtain ⟨seg', segs', h1, h2⟩ := splitOnYield_append_yieldFree
      (processRange p lat lng (dates.take 50) c).2 hfree
      (WarmEv.yield :: (processDeferred p lat lng (dates.drop 50)
        (processRange p lat lng (dates.take 50) c).1).2)
    rw [splitOnYield_yield_cons] at h1
    obtain ⟨rfl, rfl⟩ := List.cons.inj h1
    rw [h2] at hseg
    rcases List.mem_cons.mp hseg with rfl | hmem
    · rw [List.append_nil]
      exact hcount
    · exact processDeferred_segments p lat lng (dates.drop 50)
        (processRange p lat lng (dates.take 50) c).1 seg hmem
  · simp only [h, dif_neg, not_false_iff] at hseg
    obtain ⟨seg', segs', h1, h2⟩ := splitOnYield_append_yieldFree
      (processRange p lat lng (dates.take 50) c).2 hfree []
    simp only [splitOnYield] at h1
    obtain ⟨rfl, rfl⟩ := List.cons.inj h1
    rw [List.append_nil] at h2
    rw [h2] at hseg
    rcases List.mem_cons.mp hseg with rfl | hmem
    · exact hcount
    · cases hmem
termination_by dates.length
decreasing_by simp [List.length_drop]; omega

/-- Compute events of the deferred batches concern keys that were not
cached when the deferred run started. -/
theorem processDeferred_computes (p : Panchang) (lat lng : String)
    (dates : List String) (c : Cache) (d la ln : String)
    (h : WarmEv.compute d la ln ∈ (processDeferred p lat lng dates c).2) :
    la = lat ∧ ln = lng ∧ mapHas c (getCacheKey d lat lng) = false := by
  rw [processDeferred] at h
  by_cases hlen : 50 < dates.length
  · simp only [hlen, dif_pos] at h
    rcases List.mem_append.mp h with hmem | hmem
    · obtain ⟨-, -, h3⟩ :=
        processRange_events p lat lng (dates.take 50) c _ hmem
      obtain ⟨-, hla, hln, hh⟩ := h3 d la ln rfl
      exact ⟨hla, hln, hh⟩
    · rcases List.mem_cons.mp hmem with heq | hmem2
      · cases heq
      · obtain ⟨hla, hln, hh⟩ := processDeferred_computes p lat lng
          (dates.drop 50) (processRange p lat lng (dates.take 50) c).1 d la ln hmem2
        refine ⟨hla, hln, ?_⟩
        cases hc0 : mapHas c (getCacheKey d lat lng)
        · rfl
        · exact absurd (processRange_mapHas_mono p lat lng (dates.take 50) c _ hc0)
            (by rw [hh]; simp)
  · simp only [hlen, dif_neg, not_false_iff] at h
    obtain ⟨-, -, h3⟩ := processRange_events p lat lng (dates.take 50) c _ h
    obtain ⟨-, hla, hln, hh⟩ := h3 d la ln rfl
    exact ⟨hla, hln, hh⟩
termination_by dates.length
decreasing_by simp [List.length_drop]; omega

/-- Decomposition of the `/cache-year` event trace: the synchronous first
chunk, then the response, then (when dates remain) the deferred chunks
behind a yield. -/
theorem warmTrace_eq (p : Panchang) (lat lng : String) (year : Nat)
    (c : Cache) :
    (warmTrace p lat lng year c).2 =
      (processRange p lat lng ((getDatesInCurrentYear year).take 50) c).2 ++
        WarmEv.respond (getDatesInCurrentYear year).length (lat ++ ", " ++ lng) ::
          (if 50 < (getDatesInCurrentYear year).length then
            WarmEv.yield :: (processDeferred p lat lng
              ((getDatesInCurrentYear year).drop 50)
              (processRange p lat lng ((getDatesInCurrentYear year).take 50) c).1).2
          else []) := by
  simp only [warmTrace]
  by_cases h : 50 < (getDatesInCurrentYear year).length
  · simp [h]
  · simp [h]

/-- Every yield-delimited segment of the full `/cache-year` trace contains
at most 50 computer invocations. -/
theorem warmTrace_segments (p : Panchang) (lat lng : String) (year : Nat)
    (c : Cache) :
    ∀ seg ∈ splitOnYield (warmTrace p lat lng year c).2,
      seg.countP WarmEv.isCompute ≤ 50 := by
  intro seg hseg
  rw [warmTrace_eq] at hseg
  set dates := getDatesInCurrentYear year with hdates
  set evs0 := (processRange p lat lng (dates.take 50) c).2 with hevs0
  have hfree : ∀ e ∈ evs0 ++ [WarmEv.respond dates.length (lat ++ ", " ++ lng)],
      (fun e => e ≠ WarmEv.yield) e := by
    intro e he
    rcases List.mem_append.mp he with he | he
    · exact (processRange_events p lat lng (dates.take 50) c e he).1
    · rcases List.mem_singleton.mp he with rfl
      simp
  have hcount : (evs0 ++ [WarmEv.respond dates.length
      (lat ++ ", " ++ lng)]).countP WarmEv.isCompute ≤ 50 := by
    rw [List.countP_append]
    have h1 : List.countP WarmEv.isCompute evs0 ≤ 50 := by
      refine Nat.le_trans (processRange_countCompute_le p lat lng (dates.take 50) c) ?_
      rw [List.length_take]
      exact Nat.min_le_left _ _
    have h2 : List.countP WarmEv.isCompute
        [WarmEv.respond dates.length (lat ++ ", " ++ lng)] = 0 := by
      simp [WarmEv.isCompute]
    omega
  by_cases h : 50 < dates.length
  · rw [if_pos h] at hseg
    have hassoc : evs0 ++ WarmEv.respond dates.length (lat ++ ", " ++ lng) ::
        WarmEv.yield :: (processDeferred p lat lng (dates.drop 50)
          (processRange p lat lng (dates.take 50) c).1).2 =
        (evs0 ++ [WarmEv.respond dates.length (lat ++ ", " ++ lng)]) ++
          WarmEv.yield :: (processDeferred p lat lng (dates.drop 50)
            (processRange p lat lng (dates.take 50) c).1).2 := by
      simp
    rw [hassoc] at hseg
    obtain ⟨seg', segs', h1, h2⟩ := splitOnYield_append_yieldFree _ hfree
      (WarmEv.yield :: (processDeferred p lat lng (dates.drop 50)
        (processRange p lat lng (dates.take 50) c).1).2)
    rw [splitOnYield_yield_cons] at h1
    obtain ⟨rfl, rfl⟩ := List.cons.inj h1
    rw [h2] at hseg
    rcases List.mem_cons.mp hseg with rfl | hmem
    · rw [List.append_nil]
      exact hcount
    · exact processDeferred_segments p lat lng (dates.drop 50)
        (processRange p lat lng (dates.take 50) c).1 seg hmem
  · rw [if_neg h] at hseg
    obtain ⟨seg', segs', h1, h2⟩ := splitOnYield_append_yieldFree _ hfree []
    simp only [splitOnYield] at h1
    obtain ⟨rfl, rfl⟩ := List.cons.inj h1
    rw [List.append_nil] at h2
    rw [h2] at hseg
    rcases List.mem_cons.mp hseg with rfl | hmem
    · exact hcount
    · cases hmem

/-- Compute events of the full `/cache-year` trace use the request's own
coordinates and concern only keys that were absent when the request
started. -/
theorem warmTrace_computes (p : Panchang) (lat lng : String) (year : Nat)
    (c : Cache) (d la ln : String)
    (h : WarmEv.compute d la ln ∈ (warmTrace p lat lng year c).2) :
    la = lat ∧ ln = lng ∧ mapHas c (getCacheKey d lat lng) = false := by
  rw [warmTrace_eq] at h
  set dates := getDatesInCurrentYear year with hdates
  rcases List.mem_append.mp h with hmem | hmem
  · obtain ⟨-, -, h3⟩ := processRange_events p lat lng (dates.take 50) c _ hmem
    obtain ⟨-, hla, hln, hh⟩ := h3 d la ln rfl
    exact ⟨hla, hln, hh⟩
  · rcases List.mem_cons.mp hmem with heq | hmem2
    · cases heq
    · by_cases hlen : 50 < dates.length
      · rw [if_pos hlen] at hmem2
        rcases List.mem_cons.mp hmem2 with heq | hmem3
        · cases heq
        · obtain ⟨hla, hln, hh⟩ := processDeferred_computes p lat lng
            (dates.drop 50) (processRange p lat lng (dates.take 50) c).1 d la ln hmem3
          refine ⟨hla, hln, ?_⟩
          cases hc0 : mapHas c (getCacheKey d lat lng)
          · rfl
          · exact absurd
              (processRange_mapHas_mono p lat lng (dates.take 50) c _ hc0)
              (by rw [hh]; simp)
      · rw [if_neg hlen] at hmem2
        cases hmem2

/-! ## Claim C2: response timing of `POST /cache-year` -/

/-- C2 counterexample: the first chunk is processed synchronously BEFORE
`res.json` runs (the handler calls `processBatch()` and only then
responds).  Concretely, warming 2024 from an empty cache with the
always-throwing computer: the very first event of the trace is a computer
invocation for `2024-01-01`, and the response event occurs only at
position 100, after the 50 compute/errorLog pairs of the first chunk —
so date computations do happen before the response is produced. -/
theorem cacheYear_eager_counterexample_C2 :
    (warmTrace errPanchang "1" "2" 2024 []).2.get? 0 =
      some (WarmEv.compute "2024-01-01" "1" "2") ∧
    (warmTrace errPanchang "1" "2" 2024 []).2.get? 100 =
      some (WarmEv.respond 366 "1, 2") := by
  constructor
  · rfl
  · rfl

/-- C2 (amended): the `/cache-year` response `{totalDates, location}` is
produced after the synchronous first chunk and before all deferred work:
the events preceding the response are exactly the processing of the first
(up to) 50 dates, every date computed before the response lies in those
first 50, the response itself carries `totalDates = number of days of the
year` and the location string, and all remaining dates are processed only
after the response, behind a yield. -/
theorem cacheYear_timing_C2 (p : Panchang) (lat lng : String) (year : Nat)
    (cache : Cache) (d la ln : String)
    (h : WarmEv.compute d la ln ∈
      ((warmTrace p lat lng year cache).2.takeWhile (fun e => !e.isRespond))) :
    ((warmTrace p lat lng year cache).2.takeWhile (fun e => !e.isRespond)) =
      (processRange p lat lng ((getDatesInCurrentYear year).take 50) cache).2 ∧
    d ∈ (getDatesInCurrentYear year).take 50 ∧
    ((warmTrace p lat lng year cache).2.dropWhile (fun e => !e.isRespond)).head? =
      some (WarmEv.respond (getDatesInCurrentYear year).length
        (lat ++ ", " ++ lng)) ∧
    ((warmTrace p lat lng year cache).2.dropWhile (fun e => !e.isRespond)).tail =
      (if 50 < (getDatesInCurrentYear year).length then
        WarmEv.yield :: (processDeferred p lat lng
          ((getDatesInCurrentYear year).drop 50)
          (processRange p lat lng
            ((getDatesInCurrentYear year).take 50) cache).1).2
      else []) := by
  have hnr : ∀ x ∈ (processRange p lat lng
      ((getDatesInCurrentYear year).take 50) cache).2,
      (fun e => !WarmEv.isRespond e) x = true := by
    intro x hx
    have := (processRange_events p lat lng
      ((getDatesInCurrentYear year).take 50) cache x hx).2.1
    simp [this]
  have htake : ((warmTrace p lat lng year cache).2.takeWhile
      (fun e => !e.isRespond)) =
      (processRange p lat lng ((getDatesInCurrentYear year).take 50) cache).2 := by
    rw [warmTrace_eq, takeWhile_append_all _ _ _ hnr, List.takeWhile_cons,
      if_neg (by simp [WarmEv.isRespond]), List.append_nil]
  have hdrop : ((warmTrace p lat lng year cache).2.dropWhile
      (fun e => !e.isRespond)) =
      WarmEv.respond (getDatesInCurrentYear year).length (lat ++ ", " ++ lng) ::
        (if 50 < (getDatesInCurrentYear year).length then
          WarmEv.yield :: (processDeferred p lat lng
            ((getDatesInCurrentYear year).drop 50)
            (processRange p lat lng
              ((getDatesInCurrentYear year).take 50) cache).1).2
        else []) := by
    rw [warmTrace_eq, dropWhile_append_all _ _ _ hnr, List.dropWhile_cons,
      if_neg (by simp [WarmEv.isRespond])]
  refine ⟨htake, ?_, by rw [hdrop]; rfl, by rw [hdrop]; rfl⟩
  rw [htake] at h
  obtain ⟨-, -, h3⟩ := processRange_events p lat lng
    ((getDatesInCurrentYear year).take 50) cache _ h
  exact (h3 d la ln rfl).1

/-- C2 witness: warming 2024 from an empty cache with the throwing
computer, the computation of `2024-01-01` happens before the response and
`2024-01-01` is among the first 50 enumerated dates. -/
theorem cacheYear_timing_C2_witness :
    ((warmTrace errPanchang "1" "2" 2024 []).2.takeWhile
      (fun e => !e.isRespond)) =
      (processRange errPanchang "1" "2"
        ((getDatesInCurrentYear 2024).take 50) []).2 ∧
    "2024-01-01" ∈ (getDatesInCurrentYear 2024).take 50 ∧
    ((warmTrace errPanchang "1" "2" 2024 []).2.dropWhile
      (fun e => !e.isRespond)).head? =
      some (WarmEv.respond (getDatesInCurrentYear 2024).length ("1" ++ ", " ++ "2")) := by
  have h := cacheYear_timing_C2 errPanchang "1" "2" 2024 []
    "2024-01-01" "1" "2" (by decide)
  exact ⟨h.1, h.2.1, h.2.2.1⟩

/-! ## Claim C8: chunking, skipping and error tolerance of the batch
warmer -/

/-- C8: the batch warmer (i) performs at most 50 computer invocations
between consecutive yield points (every yield-delimited segment of the
trace has at most 50 computes, the chunk size), (ii) never computes a
date whose (date, lat, lng) key is already present in the cache when the
request starts, and (iii) a per-date computation error contributes a
compute event and a logged error for that date and the rest of the range
is processed on the unchanged cache (the batch is not aborted). -/
theorem processBatch_C8 (p : Panchang) (lat lng : String) (year : Nat)
    (cache : Cache) (d d' e : String) (rest : List String)
    (hskip : mapHas cache (getCacheKey d' lat lng) = true)
    (herr1 : mapHas cache (getCacheKey d lat lng) = false)
    (herr2 : p.calendar d lat lng = Except.error e) :
    ((splitOnYield (warmTrace p lat lng year cache).2).all
      (fun seg => decide (seg.countP WarmEv.isCompute ≤ 50))) = true ∧
    WarmEv.compute d' lat lng ∉ (warmTrace p lat lng year cache).2 ∧
    processRange p lat lng (d :: rest) cache =
      ((processRange p lat lng rest cache).1,
        WarmEv.compute d lat lng :: WarmEv.errorLog d ::
          (processRange p lat lng rest cache).2) := by
  refine ⟨?_, ?_, processRange_cons_miss_errCal p lat lng d e rest cache herr1 herr2⟩
  · rw [List.all_eq_true]
    intro seg hseg
    exact decide_eq_true (warmTrace_segments p lat lng year cache seg hseg)
  · intro hmem
    obtain ⟨-, -, hh⟩ := warmTrace_computes p lat lng year cache d' lat lng hmem
    rw [hskip] at hh
    cases hh

/-- C8 witness: warming 2024 with a cache already holding `2024-02-02`
and the throwing computer: no segment exceeds 50 computes, the cached
date is never recomputed, and the failing date `2024-01-01` is logged and
skipped while the (empty) remainder still processes on the unchanged
cache. -/
theorem processBatch_C8_witness :
    ((splitOnYield (warmTrace errPanchang "1" "2" 2024
      [(getCacheKey "2024-02-02" "1" "2", sampleRecord)]).2).all
      (fun seg => decide (seg.countP WarmEv.isCompute ≤ 50))) = true ∧
    WarmEv.compute "2024-02-02" "1" "2" ∉
      (warmTrace errPanchang "1" "2" 2024
        [(getCacheKey "2024-02-02" "1" "2", sampleRecord)]).2 ∧
    processRange errPanchang "1" "2" ["2024-01-01"]
      [(getCacheKey "2024-02-02" "1" "2", sampleRecord)] =
      ((processRange errPanchang "1" "2" []
          [(getCacheKey "2024-02-02" "1" "2", sampleRecord)]).1,
        WarmEv.compute "2024-01-01" "1" "2" :: WarmEv.errorLog "2024-01-01" ::
          (processRange errPanchang "1" "2" []
            [(getCacheKey "2024-02-02" "1" "2", sampleRecord)]).2) := by
  exact processBatch_C8 errPanchang "1" "2" 2024
    [(getCacheKey "2024-02-02" "1" "2", sampleRecord)]
    "2024-01-01" "2024-02-02" "Invalid Date" []
    (by decide) (by decide) rfl

/-! ## Faithful caches -/

theorem cacheFaithful_nil (p : Panchang) (lat lng : String) :
    cacheFaithful p [] lat lng := by
  intro d r h
  cases h

/-- Under a faithful cache, one `getPanchangData` call returns exactly the
computer's record for the date (`none` exactly when the computer throws),
and faithfulness is preserved. -/
theorem getPanchangData_faithful_step (p : Panchang) (c : Cache)
    (lat lng d : String) (hf : cacheFaithful p c lat lng) :
    (getPanchangData p c d lat lng).1.toOption = computedRecord p d lat lng ∧
    cacheFaithful p (getPanchangData p c d lat lng).2.1 lat lng := by
  cases hk : mapGet? c (getCacheKey d lat lng) with
  | some r =>
    rw [getPanchangData_hit p c d lat lng r hk]
    exact ⟨(hf d r hk).symm, hf⟩
  | none =>
    cases hcal : p.calendar d lat lng with
    | error e =>
      rw [getPanchangData_miss_errCal p c d lat lng e hk hcal]
      exact ⟨by simp [computedRecord, hcal, Except.toOption], hf⟩
    | ok cf =>
      cases hsun : p.sunTimer d lat lng with
      | error e =>
        rw [getPanchangData_miss_errSun p c d lat lng e cf hk hcal hsun]
        exact ⟨by simp [computedRecord, hcal, hsun, Except.toOption], hf⟩
      | ok st =>
        rw [getPanchangData_miss_ok p c d lat lng cf st hk hcal hsun]
        refine ⟨by simp [computedRecord, hcal, hsun, Except.toOption], ?_⟩
        intro d2 r2 hg
        by_cases hd : getCacheKey d2 lat lng = getCacheKey d lat lng
        · rw [hd, mapGet?_mapSet_self] at hg
          have hdd : d2 = d := getCacheKey_inj_date hd
          subst hdd
          rw [← Option.some.inj hg]
          simp [computedRecord, hcal, hsun]
        · rw [mapGet?_mapSet_ne _ _ _ _ hd] at hg
          exact hf d2 r2 hg

/-- Under a faithful cache, the search scan produces exactly the
spec-side `filterMap` over the scanned dates, and preserves
faithfulness. -/
theorem searchScan_spec (p : Panchang) (term lat lng : String) :
    ∀ (ds : List String) (c : Cache), cacheFaithful p c lat lng →
      (searchScan p term lat lng ds c).1 =
        ds.filterMap (specSearchMatch p term lat lng) ∧
      cacheFaithful p (searchScan p term lat lng ds c).2 lat lng
  | [], c, hf => ⟨rfl, hf⟩
  | d :: rest, c, hf => by
    have hstep := getPanchangData_faithful_step p c lat lng d hf
    cases hk : mapGet? c (getCacheKey d lat lng) with
    | some r =>
      rw [getPanchangData_hit p c d lat lng r hk] at hstep
      have hcr : computedRecord p d lat lng = some r := (hf d r hk)
      have hnext := searchScan_spec p term lat lng rest c hstep.2
      simp only [searchScan, getPanchangData_hit p c d lat lng r hk]
      rw [List.filterMap_cons]
      simp only [specSearchMatch, hcr]
      by_cases hcond : (r.tithi != "" &&
          (jsToLowerCase r.tithi == jsToLowerCase term)) = true
      · rw [if_pos hcond, if_pos hcond]
        exact ⟨by rw [hnext.1], hnext.2⟩
      · rw [if_neg hcond, if_neg hcond]
        exact ⟨by rw [hnext.1], hnext.2⟩
    | none =>
      cases hcal : p.calendar d lat lng with
      | error e =>
        have hcr : computedRecord p d lat lng = none := by
          simp [computedRecord, hcal]
        have hnext := searchScan_spec p term lat lng rest c hf
        simp only [searchScan, getPanchangData_miss_errCal p c d lat lng e hk hcal]
        rw [List.filterMap_cons]
        simp only [specSearchMatch, hcr]
        exact hnext
      | ok cf =>
        cases hsun : p.sunTimer d lat lng with
        | error e =>
          have hcr : computedRecord p d lat lng = none := by
            simp [computedRecord, hcal, hsun]
          have hnext := searchScan_spec p term lat lng rest c hf
          simp only [searchScan,
            getPanchangData_miss_errSun p c d lat lng e cf hk hcal hsun]
          rw [List.filterMap_cons]
          simp only [specSearchMatch, hcr]
          exact hnext
        | ok st =>
          rw [getPanchangData_miss_ok p c d lat lng cf st hk hcal hsun] at hstep
          have hcr : computedRecord p d lat lng =
              some (buildRecord d lat lng cf st) := by
            simp [computedRecord, hcal, hsun]
          have hnext := searchScan_spec p term lat lng rest
            (mapSet c (getCacheKey d lat lng) (buildRecord d lat lng cf st))
            hstep.2
          simp only [searchScan,
            getPanchangData_miss_ok p c d lat lng cf st hk hcal hsun]
          rw [List.filterMap_cons]
          simp only [specSearchMatch, hcr]
          by_cases hcond : ((buildRecord d lat lng cf st).tithi != "" &&
              (jsToLowerCase (buildRecord d lat lng cf st).tithi ==
                jsToLowerCase term)) = true
          · rw [if_pos hcond, if_pos hcond]
            exact ⟨by rw [hnext.1], hnext.2⟩
          · rw [if_neg hcond, if_neg hcond]
            exact ⟨by rw [hnext.1], hnext.2⟩

theorem jsToLowerCase_eq_empty_iff (s : String) :
    jsToLowerCase s = "" ↔ s = "" := by
  constructor
  · intro h
    have hd : s.data.map Char.toLower = [] := congrArg String.data h
    apply String.ext
    simpa using List.map_eq_nil_iff.mp hd
  · rintro rfl
    rfl

/-- For a nonempty search term, the truthiness guard on the record's tithi
is redundant: a tithi that lowercases to the (nonempty) lowercased term is
itself nonempty. -/
theorem match_truthiness (term : String) (hterm : term ≠ "")
    (pd : AlmanacRecord) :
    (pd.tithi != "" && (jsToLowerCase pd.tithi == jsToLowerCase term)) =
      (jsToLowerCase pd.tithi == jsToLowerCase term) := by
  cases h : (jsToLowerCase pd.tithi == jsToLowerCase term)
  · rw [Bool.and_false]
  · have heq : jsToLowerCase pd.tithi = jsToLowerCase term := eq_of_beq h
    have hne : pd.tithi ≠ "" := by
      intro hzero
      rw [hzero] at heq
      exact hterm ((jsToLowerCase_eq_empty_iff term).mp heq.symm)
    have hb : (pd.tithi != "") = true := bne_iff_ne.mpr hne
    rw [hb, Bool.true_and]

theorem specSearchMatch_of_ne (p : Panchang) (term lat lng : String)
    (hterm : term ≠ "") (d : String) :
    specSearchMatch p term lat lng d =
      match computedRecord p d lat lng with
      | some pd => if jsToLowerCase pd.tithi == jsToLowerCase term
          then some (toMatchEntry pd) else none
      | none => none := by
  unfold specSearchMatch
  cases computedRecord p d lat lng with
  | none => rfl
  | some pd =>
    show (if (pd.tithi != "" &&
        (jsToLowerCase pd.tithi == jsToLowerCase term)) = true
        then some (toMatchEntry pd) else none) =
      (if (jsToLowerCase pd.tithi == jsToLowerCase term) = true
        then some (toMatchEntry pd) else none)
    rw [match_truthiness term hterm pd]

theorem computedRecord_date (p : Panchang) (d lat lng : String)
    (pd : AlmanacRecord) (h : computedRecord p d lat lng = some pd) :
    pd.date = d := by
  unfold computedRecord at h
  cases hcal : p.calendar d lat lng with
  | error e => rw [hcal] at h; cases h
  | ok cf =>
    cases hsun : p.sunTimer d lat lng with
    | error e => rw [hcal, hsun] at h; cases h
    | ok st =>
      rw [hcal, hsun] at h
      rw [← Option.some.inj h]
      rfl

theorem filterMap_refines_sublist (f : String → Option String)
    (h : ∀ a b, f a = some b → b = a) :
    ∀ l : List String, (l.filterMap f).Sublist l
  | [] => List.Sublist.refl []
  | a :: l => by
    rw [List.filterMap_cons]
    cases hf : f a with
    | none => exact (filterMap_refines_sublist f h l).cons a
    | some b =>
      rw [h a b hf]
      exact (filterMap_refines_sublist f h l).cons₂ a

theorem lexString_trans : Transitive
    (fun a b : String => List.Lex charNatLt a.data b.data) := by
  intro a b c h1 h2
  exact (charsLt_iff_lex _ _).mp (charsLt_trans
    ((charsLt_iff_lex _ _).mpr h1) ((charsLt_iff_lex _ _).mpr h2))

/-! ## Claim C5: the search scan -/

/-- C5: on a SearchIndexCache miss with a nonempty term and a faithful
ResultCache, the search scans the whole year enumeration and returns
exactly the dates whose computed record matches the term
case-insensitively (dates whose computation throws are skipped without
aborting — they are simply absent from the `filterMap`), assembled as
`{tithi, location, totalMatches, dates}` with `totalMatches` the number of
matches; the result is stored in SearchIndexCache under the search key;
and the match list is in date-ascending order whenever the enumeration
is. -/
theorem searchTithi_scan_C5 (p : Panchang) (st : ServerState)
    (term lat lng : String) (year : Nat)
    (hf : cacheFaithful p st.panchangCache lat lng)
    (hmiss : mapGet? st.tithiSearchCache (term ++ "_" ++ lat ++ "_" ++ lng) = none)
    (hterm : term ≠ "")
    (hasc : List.Chain' (fun a b => List.Lex charNatLt a.data b.data)
      (getDatesInCurrentYear year)) :
    (searchTithi p st term lat lng year).1 =
      { tithi := term, location := lat ++ ", " ++ lng,
        totalMatches := ((getDatesInCurrentYear year).filterMap
          (fun d => match computedRecord p d lat lng with
            | some pd => if jsToLowerCase pd.tithi == jsToLowerCase term
                then some (toMatchEntry pd) else none
            | none => none)).length,
        dates := (getDatesInCurrentYear year).filterMap
          (fun d => match computedRecord p d lat lng with
            | some pd => if jsToLowerCase pd.tithi == jsToLowerCase term
                then some (toMatchEntry pd) else none
            | none => none) } ∧
    (searchTithi p st term lat lng year).2.tithiSearchCache =
      mapSet st.tithiSearchCache (term ++ "_" ++ lat ++ "_" ++ lng)
        (searchTithi p st term lat lng year).1 ∧
    List.Pairwise (fun a b => List.Lex charNatLt a.data b.data)
      ((searchTithi p st term lat lng year).1.dates.map (fun m => m.date)) := by
  have hspec := searchScan_spec p term lat lng (getDatesInCurrentYear year)
    st.panchangCache hf
  have hfn : specSearchMatch p term lat lng =
      (fun d => match computedRecord p d lat lng with
        | some pd => if jsToLowerCase pd.tithi == jsToLowerCase term
            then some (toMatchEntry pd) else none
        | none => none) :=
    funext (specSearchMatch_of_ne p term lat lng hterm)
  have h0 : searchTithi p st term lat lng year =
      ({ tithi := term, location := lat ++ ", " ++ lng,
         totalMatches := (searchScan p term lat lng
           (getDatesInCurrentYear year) st.panchangCache).1.length,
         dates := (searchScan p term lat lng
           (getDatesInCurrentYear year) st.panchangCache).1 },
       { panchangCache := (searchScan p term lat lng
           (getDatesInCurrentYear year) st.panchangCache).2,
         tithiSearchCache := mapSet st.tithiSearchCache
           (term ++ "_" ++ lat ++ "_" ++ lng)
           { tithi := term, location := lat ++ ", " ++ lng,
             totalMatches := (searchScan p term lat lng
               (getDatesInCurrentYear year) st.panchangCache).1.length,
             dates := (searchScan p term lat lng
               (getDatesInCurrentYear year) st.panchangCache).1 } }) := by
    simp only [searchTithi]
    rw [hmiss]
  have hscan : (searchScan p term lat lng (getDatesInCurrentYear year)
      st.panchangCache).1 = (getDatesInCurrentYear year).filterMap
        (fun d => match computedRecord p d lat lng with
          | some pd => if jsToLowerCase pd.tithi == jsToLowerCase term
              then some (toMatchEntry pd) else none
          | none => none) := by
    rw [hspec.1, hfn]
  refine ⟨?_, ?_, ?_⟩
  · rw [h0]
    simp only [hscan]
  · rw [h0]
  · rw [h0]
    simp only [hscan]
    rw [List.map_filterMap]
    have hpw := (@List.chain'_iff_pairwise String
      (fun a b : String => List.Lex charNatLt a.data b.data)
      ⟨fun a b c hab hbc => lexString_trans hab hbc⟩
      (getDatesInCurrentYear year)).mp hasc
    refine List.Pairwise.sublist ?_ hpw
    refine filterMap_refines_sublist _ ?_ _
    intro a b hab
    cases hcr : computedRecord p a lat lng with
    | none => simp [hcr] at hab
    | some pd =>
      simp only [hcr] at hab
      by_cases hcond : (jsToLowerCase pd.tithi == jsToLowerCase term) = true
      · rw [if_pos hcond] at hab
        have hb : (toMatchEntry pd).date = b := by simpa using hab
        rw [← hb]
        exact computedRecord_date p a lat lng pd hcr
      · rw [if_neg hcond] at hab
        simp at hab

/-- C5 witness: a concrete miss-path search against the empty state with
the constant computer. -/
theorem searchTithi_scan_C5_witness :
    (searchTithi constPanchang ⟨[], []⟩ "purnima" "1" "2" 2024).2.tithiSearchCache =
      mapSet ([] : List (String × SearchResult))
        ("purnima" ++ "_" ++ "1" ++ "_" ++ "2")
        (searchTithi constPanchang ⟨[], []⟩ "purnima" "1" "2" 2024).1 ∧
    List.Pairwise (fun a b => List.Lex charNatLt a.data b.data)
      ((searchTithi constPanchang ⟨[], []⟩ "purnima" "1" "2" 2024).1.dates.map
        (fun m => m.date)) := by
  have h := searchTithi_scan_C5 constPanchang ⟨[], []⟩ "purnima" "1" "2" 2024
    (cacheFaithful_nil constPanchang "1" "2") rfl (by decide)
    ((chainAsc_iff _).mp (by decide))
  exact ⟨h.2.1, h.2.2⟩

/-! ## Stride sampling (`GET /tithis`) -/

theorem enumFilter_skip (k : Nat) : ∀ (l : List String) (n : Nat),
    (∀ t, t < k → (n + t) % 15 ≠ 0) →
    ((List.enumFrom n l).filter (fun q => q.1 % 15 == 0)).map (fun q => q.2) =
      ((List.enumFrom (n + k) (l.drop k)).filter
        (fun q => q.1 % 15 == 0)).map (fun q => q.2) := by
  induction k with
  | zero => intro l n _; rfl
  | succ k ih =>
    intro l n h
    cases l with
    | nil => simp [List.enumFrom]
    | cons a l' =>
      have h0 : (n % 15 == 0) = false := by
        have := h 0 (Nat.succ_pos k)
        simpa using this
      have hstep : ((List.enumFrom n (a :: l')).filter
          (fun q => q.1 % 15 == 0)).map (fun q => q.2) =
          ((List.enumFrom (n + 1) l').filter
            (fun q => q.1 % 15 == 0)).map (fun q => q.2) := by
        simp [List.enumFrom, List.filter_cons, h0]
      rw [hstep, ih l' (n + 1) (fun t ht => by
        have := h (t + 1) (by omega)
        simpa [Nat.add_assoc, Nat.add_comm 1 t] using this)]
      have : n + 1 + k = n + (k + 1) := by omega
      rw [this]
      rfl

/-- The sampled list of `GET /tithis` visits exactly the dates at indices
0, 15, 30, …: its `j`-th element is the `15 * j`-th element of the
enumeration. -/
theorem sample_get? : ∀ (l : List String) (n j : Nat), n % 15 = 0 →
    (((List.enumFrom n l).filter (fun q => q.1 % 15 == 0)).map
      (fun q => q.2)).get? j = l.get? (15 * j)
  | [], n, j, _ => by simp [List.enumFrom]
  | a :: l', n, j, hn => by
    have hkeep : (n % 15 == 0) = true := by simpa using hn
    have hhead : ((List.enumFrom n (a :: l')).filter
        (fun q => q.1 % 15 == 0)).map (fun q => q.2) =
        a :: ((List.enumFrom (n + 1) l').filter
          (fun q => q.1 % 15 == 0)).map (fun q => q.2) := by
      simp [List.enumFrom, List.filter_cons, hkeep]
    rw [hhead]
    cases j with
    | zero => rfl
    | succ j' =>
      rw [List.get?_cons_succ]
      rw [enumFilter_skip 14 l' (n + 1) (fun t ht => by omega)]
      have hn15 : (n + 1 + 14) % 15 = 0 := by omega
      rw [show n + 1 + 14 = n + 15 from by omega] at hn15 ⊢
      rw [sample_get? (l'.drop 14) (n + 15) j' hn15]
      rw [List.get?_drop]
      have hidx : 14 + 15 * j' = 15 * (j' + 1) - 1 := by omega
      rw [show 15 * (j' + 1) = (14 + 15 * j') + 1 from by omega]
      rfl
termination_by l _ _ => l.length
decreasing_by simp [List.length_drop]; omega

/-! ## The tithi set collected by `GET /tithis` -/

theorem setAdd_mem (s : List String) (x t : String) :
    t ∈ setAdd s x ↔ t ∈ s ∨ t = x := by
  unfold setAdd
  by_cases h : s.contains x
  · have hx : x ∈ s := by simpa using h
    rw [if_pos h]
    constructor
    · exact Or.inl
    · rintro (hs | rfl)
      · exact hs
      · exact hx
  · rw [if_neg h]
    rw [List.mem_append, List.mem_singleton]

theorem setAdd_nodup (s : List String) (x : String) (h : s.Nodup) :
    (setAdd s x).Nodup := by
  unfold setAdd
  by_cases hc : s.contains x
  · rw [if_pos hc]
    exact h
  · rw [if_neg hc]
    have hx : x ∉ s := by simpa using hc
    simp [List.nodup_append, h, hx]

/-- Under a faithful cache, membership in the tithi set collected by the
sampling loop is exactly membership in the accumulator or in the spec-side
`filterMap` of the scanned dates; the collection also preserves
distinctness. -/
theorem collectTithis_spec (p : Panchang) (lat lng : String) :
    ∀ (ds : List String) (c : Cache) (tset : List String),
      cacheFaithful p c lat lng →
      (∀ t, t ∈ (collectTithis p lat lng ds c tset).1 ↔
        t ∈ tset ∨ t ∈ ds.filterMap (fun d =>
          match computedRecord p d lat lng with
          | some pd => if pd.tithi != "" then some pd.tithi else none
          | none => none)) ∧
      (tset.Nodup → (collectTithis p lat lng ds c tset).1.Nodup)
  | [], c, tset, _ => by
    refine ⟨fun t => ?_, fun h => h⟩
    simp [collectTithis]
  | d :: rest, c, tset, hf => by
    have hstep := getPanchangData_faithful_step p c lat lng d hf
    cases hk : mapGet? c (getCacheKey d lat lng) with
    | some r =>
      rw [getPanchangData_hit p c d lat lng r hk] at hstep
      have hcr : computedRecord p d lat lng = some r := hf d r hk
      simp only [collectTithis, getPanchangData_hit p c d lat lng r hk]
      have hnext := fun ts => collectTithis_spec p lat lng rest c ts hstep.2
      by_cases hcond : (r.tithi != "") = true
      · rw [if_pos hcond]
        refine ⟨fun t => ?_, fun hnd => (hnext _).2 (setAdd_nodup tset r.tithi hnd)⟩
        rw [(hnext (setAdd tset r.tithi)).1 t, setAdd_mem,
          List.filterMap_cons]
        simp only [hcr, if_pos hcond]
        rw [List.mem_cons]
        tauto
      · rw [if_neg hcond]
        refine ⟨fun t => ?_, fun hnd => (hnext _).2 hnd⟩
        rw [(hnext tset).1 t, List.filterMap_cons]
        simp only [hcr, if_neg hcond]
    | none =>
      cases hcal : p.calendar d lat lng with
      | error e =>
        have hcr : computedRecord p d lat lng = none := by
          simp [computedRecord, hcal]
        simp only [collectTithis,
          getPanchangData_miss_errCal p c d lat lng e hk hcal]
        have hnext := collectTithis_spec p lat lng rest c tset hf
        refine ⟨fun t => ?_, hnext.2⟩
        rw [hnext.1 t, List.filterMap_cons]
        simp only [hcr]
      | ok cf =>
        cases hsun : p.sunTimer d lat lng with
        | error e =>
          have hcr : computedRecord p d lat lng = none := by
            simp [computedRecord, hcal, hsun]
          simp only [collectTithis,
            getPanchangData_miss_errSun p c d lat lng e cf hk hcal hsun]
          have hnext := collectTithis_spec p lat lng rest c tset hf
          refine ⟨fun t => ?_, hnext.2⟩
          rw [hnext.1 t, List.filterMap_cons]
          simp only [hcr]
        | ok st =>
          rw [getPanchangData_miss_ok p c d lat lng cf st hk hcal hsun] at hstep
          have hcr : computedRecord p d lat lng =
              some (buildRecord d lat lng cf st) := by
            simp [computedRecord, hcal, hsun]
          simp only [collectTithis,
            getPanchangData_miss_ok p c d lat lng cf st hk hcal hsun]
          have hnext := fun ts => collectTithis_spec p lat lng rest
            (mapSet c (getCacheKey d lat lng) (buildRecord d lat lng cf st)) ts
            hstep.2
          by_cases hcond : ((buildRecord d lat lng cf st).tithi != "") = true
          · rw [if_pos hcond]
            refine ⟨fun t => ?_, fun hnd =>
              (hnext _).2 (setAdd_nodup tset _ hnd)⟩
            rw [(hnext (setAdd tset (buildRecord d lat lng cf st).tithi)).1 t,
              setAdd_mem, List.filterMap_cons]
            simp only [hcr, if_pos hcond]
            rw [List.mem_cons]
            tauto
          · rw [if_neg hcond]
            refine ⟨fun t => ?_, fun hnd => (hnext _).2 hnd⟩
            rw [(hnext tset).1 t, List.filterMap_cons]
            simp only [hcr, if_neg hcond]

/-! ## The JS default sort order -/

theorem sortLe_trans (a b c : String) (h1 : (!charsLt b.data a.data) = true)
    (h2 : (!charsLt c.data b.data) = true) :
    (!charsLt c.data a.data) = true := by
  rw [Bool.not_eq_true'] at h1 h2 ⊢
  cases hac : charsLt c.data a.data
  · rfl
  · exfalso
    cases hab : charsLt a.data b.data
    · have hEq := charsLt_conn hab h1
      rw [hEq] at hac
      rw [h2] at hac
      simp at hac
    · have htr := charsLt_trans hac hab
      rw [h2] at htr
      simp at htr

theorem sortLe_total (a b : String) :
    ((!charsLt b.data a.data) || (!charsLt a.data b.data)) = true := by
  cases h : charsLt b.data a.data
  · simp
  · have ha := charsLt_asymm h
    simp [ha]

/-! ## Claim C9: the suggestion sampler -/

/-- C9: the `/tithis` sampler visits exactly the dates at indices
0, 15, 30, … of the year's enumeration (the sampled list's `j`-th element
is the enumeration's `15·j`-th element); under a faithful cache its
response list is sorted in the JS default (lexicographic) order, has no
duplicates, and contains exactly the truthy tithi values of the sampled
dates whose computation succeeds — so a tithi occurring only at a
non-sampled index is absent. -/
theorem tithis_C9 (p : Panchang) (cache : Cache) (lat lng : String)
    (year : Nat) (t : String) (j : Nat)
    (hf : cacheFaithful p cache lat lng) :
    ((((getDatesInCurrentYear year).enum.filter (fun q => q.1 % 15 == 0)).map
      (fun q => q.2)).get? j = (getDatesInCurrentYear year).get? (15 * j)) ∧
    List.Pairwise (fun a b => ¬ List.Lex charNatLt b.data a.data)
      (tithisHandler p cache lat lng year).1.1 ∧
    (tithisHandler p cache lat lng year).1.1.Nodup ∧
    ((t ∈ (tithisHandler p cache lat lng year).1.1) ↔
      t ∈ (((getDatesInCurrentYear year).enum.filter
          (fun q => q.1 % 15 == 0)).map (fun q => q.2)).filterMap
        (fun d => match computedRecord p d lat lng with
          | some pd => if pd.tithi != "" then some pd.tithi else none
          | none => none)) ∧
    (tithisHandler p cache lat lng year).1.2.1 = lat ++ ", " ++ lng ∧
    (tithisHandler p cache lat lng year).1.2.2 =
      "Based on sample dates from current year" := by
  have hcollect := collectTithis_spec p lat lng
    (((getDatesInCurrentYear year).enum.filter
      (fun q => q.1 % 15 == 0)).map (fun q => q.2)) cache [] hf
  have h00 : (tithisHandler p cache lat lng year).1.1 =
      jsSortStrings (collectTithis p lat lng
        (((getDatesInCurrentYear year).enum.filter
          (fun q => q.1 % 15 == 0)).map (fun q => q.2)) cache []).1 := rfl
  refine ⟨sample_get? (getDatesInCurrentYear year) 0 j rfl, ?_, ?_, ?_, rfl, rfl⟩
  · rw [h00]
    unfold jsSortStrings
    refine List.Pairwise.imp ?_
      (@List.sorted_mergeSort String (fun a b => !charsLt b.data a.data)
        sortLe_trans sortLe_total
        (collectTithis p lat lng
          (((getDatesInCurrentYear year).enum.filter
            (fun q => q.1 % 15 == 0)).map (fun q => q.2)) cache []).1)
    intro a b h
    rw [Bool.not_eq_true'] at h
    intro hlex
    rw [(charsLt_iff_lex _ _).mpr hlex] at h
    simp at h
  · rw [h00]
    exact (List.mergeSort_perm _ _).nodup_iff.mpr
      (hcollect.2 List.nodup_nil)
  · rw [h00]
    unfold jsSortStrings
    rw [List.mem_mergeSort, hcollect.1 t]
    simp

/-- C9 witness: concrete sampler run over 2024 with the constant computer
and an empty cache. -/
theorem tithis_C9_witness :
    List.Pairwise (fun a b => ¬ List.Lex charNatLt b.data a.data)
      (tithisHandler constPanchang [] "1" "2" 2024).1.1 ∧
    (tithisHandler constPanchang [] "1" "2" 2024).1.1.Nodup ∧
    (("Purnima" ∈ (tithisHandler constPanchang [] "1" "2" 2024).1.1) ↔
      "Purnima" ∈ (((getDatesInCurrentYear 2024).enum.filter
          (fun q => q.1 % 15 == 0)).map (fun q => q.2)).filterMap
        (fun d => match computedRecord constPanchang d "1" "2" with
          | some pd => if pd.tithi != "" then some pd.tithi else none
          | none => none)) ∧
    ((((getDatesInCurrentYear 2024).enum.filter (fun q => q.1 % 15 == 0)).map
      (fun q => q.2)).get? 1 = (getDatesInCurrentYear 2024).get? 15) := by
  have h := tithis_C9 constPanchang [] "1" "2" 2024 "Purnima" 1
    (cacheFaithful_nil constPanchang "1" "2")
  exact ⟨h.2.1, h.2.2.1, h.2.2.2.1, h.1⟩
